import Mathlib

/-!
Verification of the cubed-sphere domain-decomposition topology in
`fv3util/partitioner.py`.

The Python module is shallowly embedded: Python `int` becomes `Int`
(Python's floor division and non-negative modulo for positive divisors
coincide with `Int`'s `/` and `%`, which are Euclidean), Python tuples
become products, and code that can raise (`NotImplementedError`,
`IndexError`, `ValueError`) returns `Except PyError`.  The numpy
arrays used by the geometric-transform helpers are embedded as an
explicit shape plus an entry function, with `np.where`-based lookup
implemented as a row-major search, exactly as numpy performs it.
-/

/-- A per-face layout `(rows, columns)`; `layout.1` is Python's
`layout[0]` and `layout.2` is `layout[1]`. -/
abbrev Layout := Int × Int

/-- The Python exceptions that the partitioner code can raise. -/
inductive PyError
  | notImplementedError
  | indexError
  | valueError
deriving DecidableEq, Repr

instance {ε α : Type} [DecidableEq ε] [DecidableEq α] : DecidableEq (Except ε α) :=
  fun x y =>
    match x, y with
    | .ok a, .ok b =>
        if h : a = b then .isTrue (by rw [h])
        else .isFalse (by intro hc; injection hc; exact h (by assumption))
    | .ok _, .error _ => .isFalse (by intro hc; injection hc)
    | .error _, .ok _ => .isFalse (by intro hc; injection hc)
    | .error e, .error f =>
        if h : e = f then .isTrue (by rw [h])
        else .isFalse (by intro hc; injection hc; exact h (by assumption))

/-- The eight boundary types of `fv3util.constants`. -/
inductive BoundaryType
  | LEFT | RIGHT | TOP | BOTTOM
  | TOP_LEFT | TOP_RIGHT | BOTTOM_LEFT | BOTTOM_RIGHT
deriving DecidableEq, Repr

/-- Embeds `fv3util.boundary.SimpleBoundary`: a directed adjacency between two
ranks plus the number of clockwise quarter-turns needed to reconcile
their frames. -/
structure SimpleBoundary where
  boundary_type : BoundaryType
  from_rank : Int
  to_rank : Int
  n_clockwise_rotations : Int
deriving DecidableEq, Repr

/-- Embeds `get_tile_index(rank, total_ranks)`: raises `ValueError` when
`total_ranks` is not divisible by 6, else `rank // (total_ranks // 6)`. -/
def get_tile_index (rank total_ranks : Int) : Except PyError Int :=
  if total_ranks % 6 ≠ 0 then .error .valueError
  else .ok (rank / (total_ranks / 6))

/-- Embeds `subtile_index(rank, ranks_per_tile, layout)`: the row-major
`(j, i)` position of a rank within its tile. -/
def subtile_index (rank ranks_per_tile : Int) (layout : Layout) : Int × Int :=
  let within_tile_rank := rank % ranks_per_tile
  (within_tile_rank / layout.2, within_tile_rank % layout.2)

/-- Embeds `on_tile_left(subtile_index)`. -/
def on_tile_left (si : Int × Int) : Bool := si.2 == 0

/-- Embeds `on_tile_right(subtile_index, layout)`. -/
def on_tile_right (si : Int × Int) (layout : Layout) : Bool := si.2 == layout.2 - 1

/-- Embeds `on_tile_top(subtile_index, layout)`. -/
def on_tile_top (si : Int × Int) (layout : Layout) : Bool := si.1 == layout.1 - 1

/-- Embeds `on_tile_bottom(subtile_index)`. -/
def on_tile_bottom (si : Int × Int) : Bool := si.1 == 0

/-- Embeds `is_even(value)`. -/
def is_even (value : Int) : Bool := value % 2 == 0

/-! ### Numpy arrays for the geometric-transform helpers -/

/-- A 2-D numpy array of integers: a shape plus an entry function
(only the entries inside the shape are meaningful). -/
structure NpArray2 where
  rows : Int
  cols : Int
  entry : Int → Int → Int

/-- Embeds `np.arange(rows * cols).reshape((rows, cols))`: the row-major rank
grid. -/
def np_arange_reshape (rows cols : Int) : NpArray2 :=
  ⟨rows, cols, fun i j => i * cols + j⟩

/-- Embeds `np.fliplr`: reverse the columns. -/
def np_fliplr (a : NpArray2) : NpArray2 :=
  ⟨a.rows, a.cols, fun i j => a.entry i (a.cols - 1 - j)⟩

/-- Embeds `np.flipud`: reverse the rows. -/
def np_flipud (a : NpArray2) : NpArray2 :=
  ⟨a.rows, a.cols, fun i j => a.entry (a.rows - 1 - i) j⟩

/-- Embeds `np.transpose`. -/
def np_transpose (a : NpArray2) : NpArray2 :=
  ⟨a.cols, a.rows, fun i j => a.entry j i⟩

/-- Embeds `np.rot90` (a single **counterclockwise** quarter-turn, numpy's
default): the result has shape `cols × rows` and
`rot90(a)[i, j] = a[j, cols - 1 - i]`. -/
def np_rot90 (a : NpArray2) : NpArray2 :=
  ⟨a.cols, a.rows, fun i j => a.entry j (a.cols - 1 - i)⟩

/-- Embeds `np.where(a == v)` followed by taking the first match: scan the
array in row-major order for the first position holding `v`.  `none`
models an empty `np.where` result (indexing it raises). -/
def np_where_first (a : NpArray2) (v : Int) : Option (Int × Int) :=
  ((List.range (a.rows.toNat * a.cols.toNat)).find? fun q =>
      a.entry (Int.ofNat (q / a.cols.toNat)) (Int.ofNat (q % a.cols.toNat)) == v).map
    fun q => (Int.ofNat (q / a.cols.toNat), Int.ofNat (q % a.cols.toNat))

/-- Indexing a numpy array at a concrete position; out-of-bounds
indices raise `IndexError`. -/
def np_index (a : NpArray2) (p : Int × Int) : Except PyError Int :=
  if 0 ≤ p.1 ∧ p.1 < a.rows ∧ 0 ≤ p.2 ∧ p.2 < a.cols then .ok (a.entry p.1 p.2)
  else .error .indexError

/-- Embeds `transform_subtile_rank(transform_func, rank, layout)`: build the
row-major rank grid, transform it, locate `rank` in the transformed
grid, and read the original grid at that position. -/
def transform_subtile_rank (transform_func : NpArray2 → NpArray2) (rank : Int)
    (layout : Layout) : Except PyError Int :=
  let rank_array := np_arange_reshape layout.1 layout.2
  match np_where_first (transform_func rank_array) rank with
  | some p => np_index rank_array p
  | none => .error .indexError

/-- Embeds `fliplr_subtile_rank(rank, layout)`. -/
def fliplr_subtile_rank (rank : Int) (layout : Layout) : Except PyError Int :=
  transform_subtile_rank np_fliplr rank layout

/-- Embeds `flipud_subtile_rank(rank, layout)`. -/
def flipud_subtile_rank (rank : Int) (layout : Layout) : Except PyError Int :=
  transform_subtile_rank np_flipud rank layout

/-- Embeds `transpose_subtile_rank(rank, layout)`. -/
def transpose_subtile_rank (rank : Int) (layout : Layout) : Except PyError Int :=
  transform_subtile_rank np_transpose rank layout

/-- Embeds `rotate_subtile_rank(rank, layout, n_clockwise_rotations)`:
`rank` unchanged for 0 rotations; for 1 rotation, locate `rank` in the
`np.rot90`-rotated rank grid and read the original grid there; any
other count raises `NotImplementedError`. -/
def rotate_subtile_rank (rank : Int) (layout : Layout)
    (n_clockwise_rotations : Int) : Except PyError Int :=
  if n_clockwise_rotations = 0 then .ok rank
  else if n_clockwise_rotations = 1 then
    let rank_array := np_arange_reshape layout.1 layout.2
    match np_where_first (np_rot90 rank_array) rank with
    | some p => np_index rank_array p
    | none => .error .indexError
  else .error .notImplementedError

/-! ### `TilePartitioner` and `CubedSpherePartitioner`

The two classes are stateless wrappers around a `HorizontalGridSpec`
holding the layout, so their methods are embedded as functions taking
the layout as first argument. -/

/-- Embeds `HorizontalGridSpec.is_square`. -/
def is_square (layout : Layout) : Bool := layout.1 == layout.2

/-- Embeds `TilePartitioner.total_ranks`: `layout[0] * layout[1]`. -/
def tile_total_ranks (layout : Layout) : Int := layout.1 * layout.2

/-- Embeds `TilePartitioner.subtile_index(rank)`. -/
def tile_subtile_index (layout : Layout) (rank : Int) : Int × Int :=
  subtile_index rank (tile_total_ranks layout) layout

/-- Embeds `TilePartitioner.on_tile_top(rank)`. -/
def tile_on_tile_top (layout : Layout) (rank : Int) : Bool :=
  on_tile_top (tile_subtile_index layout rank) layout

/-- Embeds `TilePartitioner.on_tile_bottom(rank)`. -/
def tile_on_tile_bottom (layout : Layout) (rank : Int) : Bool :=
  on_tile_bottom (tile_subtile_index layout rank)

/-- Embeds `TilePartitioner.on_tile_left(rank)`. -/
def tile_on_tile_left (layout : Layout) (rank : Int) : Bool :=
  on_tile_left (tile_subtile_index layout rank)

/-- Embeds `TilePartitioner.on_tile_right(rank)`. -/
def tile_on_tile_right (layout : Layout) (rank : Int) : Bool :=
  on_tile_right (tile_subtile_index layout rank) layout

/-- Embeds `CubedSpherePartitioner.total_ranks`: `6 * tile.total_ranks`. -/
def cs_total_ranks (layout : Layout) : Int := 6 * tile_total_ranks layout

/-- Embeds `CubedSpherePartitioner.tile_index(rank)`. -/
def cs_tile_index (layout : Layout) (rank : Int) : Except PyError Int :=
  get_tile_index rank (cs_total_ranks layout)

/-- Embeds `CubedSpherePartitioner.tile_master_rank(rank)`. -/
def tile_master_rank (layout : Layout) (rank : Int) : Int :=
  tile_total_ranks layout * (rank / tile_total_ranks layout)

/-- Embeds `CubedSpherePartitioner._ensure_square_layout()`: raises
`NotImplementedError` on a non-square layout. -/
def ensure_square_layout (layout : Layout) : Except PyError Unit :=
  if ¬ is_square layout then .error .notImplementedError else .ok ()

/-- Embeds `CubedSpherePartitioner._left_edge(rank)`. -/
def left_edge (layout : Layout) (rank : Int) : Except PyError SimpleBoundary := do
  ensure_square_layout layout
  let to_pair ←
    if tile_on_tile_left layout rank then do
      let ti ← cs_tile_index layout rank
      if is_even ti then do
        let to_master_rank := tile_master_rank layout (rank - 2 * tile_total_ranks layout)
        let tile_rank := rank % tile_total_ranks layout
        let rotated ← rotate_subtile_rank tile_rank layout 1
        let to_tile_rank ← fliplr_subtile_rank rotated layout
        Except.ok (to_master_rank + to_tile_rank, (1 : Int))
      else
        Except.ok (rank - tile_total_ranks layout + layout.1 - 1, (0 : Int))
    else
      Except.ok (rank - 1, (0 : Int))
  Except.ok { boundary_type := .LEFT, from_rank := rank,
              to_rank := to_pair.1 % cs_total_ranks layout,
              n_clockwise_rotations := to_pair.2 }

/-- Embeds `CubedSpherePartitioner._right_edge(rank)`. -/
def right_edge (layout : Layout) (rank : Int) : Except PyError SimpleBoundary := do
  ensure_square_layout layout
  ensure_square_layout layout
  let to_pair ←
    if tile_on_tile_right layout rank then do
      let ti ← cs_tile_index layout rank
      if ¬ is_even ti then do
        let to_master_rank := tile_master_rank layout (rank + 2 * tile_total_ranks layout)
        let tile_rank := rank % tile_total_ranks layout
        let rotated ← rotate_subtile_rank tile_rank layout 1
        let to_tile_rank ← fliplr_subtile_rank rotated layout
        Except.ok (to_master_rank + to_tile_rank, (1 : Int))
      else
        Except.ok (rank + tile_total_ranks layout - layout.1 + 1, (0 : Int))
    else
      Except.ok (rank + 1, (0 : Int))
  Except.ok { boundary_type := .RIGHT, from_rank := rank,
              to_rank := to_pair.1 % cs_total_ranks layout,
              n_clockwise_rotations := to_pair.2 }

/-- Embeds `CubedSpherePartitioner._top_edge(rank)`. -/
def top_edge (layout : Layout) (rank : Int) : Except PyError SimpleBoundary := do
  ensure_square_layout layout
  let to_pair ←
    if tile_on_tile_top layout rank then do
      let ti ← cs_tile_index layout rank
      if is_even ti then do
        let to_master_rank := (ti + 2) * tile_total_ranks layout
        let tile_rank := rank % tile_total_ranks layout
        let rotated ← rotate_subtile_rank tile_rank layout 1
        let to_tile_rank ← fliplr_subtile_rank rotated layout
        Except.ok (to_master_rank + to_tile_rank, (3 : Int))
      else do
        let to_master_rank := (ti + 1) * tile_total_ranks layout
        let tile_rank := rank % tile_total_ranks layout
        let to_tile_rank ← flipud_subtile_rank tile_rank layout
        Except.ok (to_master_rank + to_tile_rank, (0 : Int))
    else
      Except.ok (rank + layout.2, (0 : Int))
  Except.ok { boundary_type := .TOP, from_rank := rank,
              to_rank := to_pair.1 % cs_total_ranks layout,
              n_clockwise_rotations := to_pair.2 }

/-- Embeds `CubedSpherePartitioner._bottom_edge(rank)`. -/
def bottom_edge (layout : Layout) (rank : Int) : Except PyError SimpleBoundary := do
  ensure_square_layout layout
  let ti ← cs_tile_index layout rank
  let to_pair ←
    if tile_on_tile_bottom layout rank ∧ ¬ is_even ti then do
      let to_master_rank := (ti - 2) * tile_total_ranks layout
      let tile_rank := rank % tile_total_ranks layout
      let rotated ← rotate_subtile_rank tile_rank layout 1
      let to_tile_rank ← fliplr_subtile_rank rotated layout
      Except.ok (to_master_rank + to_tile_rank, (3 : Int))
    else
      Except.ok (rank - layout.2, (0 : Int))
  Except.ok { boundary_type := .BOTTOM, from_rank := rank,
              to_rank := to_pair.1 % cs_total_ranks layout,
              n_clockwise_rotations := to_pair.2 }

/-- Embeds `CubedSpherePartitioner._get_corner(boundary_type, rank,
edge_func_1, edge_func_2)`: compose two edge resolutions; the result's
target is the second edge's target and the rotation counts add. -/
def get_corner (boundary_type : BoundaryType) (rank : Int)
    (edge_func_1 edge_func_2 : Int → Except PyError SimpleBoundary) :
    Except PyError SimpleBoundary := do
  let edge_1 ← edge_func_1 rank
  let edge_2 ← edge_func_2 edge_1.to_rank
  Except.ok { boundary_type := boundary_type, from_rank := rank,
              to_rank := edge_2.to_rank,
              n_clockwise_rotations :=
                edge_1.n_clockwise_rotations + edge_2.n_clockwise_rotations }

/-- Embeds `CubedSpherePartitioner._top_left_corner(rank)`. -/
def top_left_corner (layout : Layout) (rank : Int) :
    Except PyError (Option SimpleBoundary) :=
  if tile_on_tile_top layout rank ∧ tile_on_tile_left layout rank then .ok none
  else do
    let ti ← cs_tile_index layout rank
    let second_edge :=
      if is_even ti ∧ on_tile_left (tile_subtile_index layout rank) then left_edge layout
      else top_edge layout
    let corner ← get_corner .TOP_LEFT rank (left_edge layout) second_edge
    Except.ok (some corner)

/-- Embeds `CubedSpherePartitioner._top_right_corner(rank)`. -/
def top_right_corner (layout : Layout) (rank : Int) :
    Except PyError (Option SimpleBoundary) :=
  if on_tile_top (tile_subtile_index layout rank) layout ∧
      on_tile_right (tile_subtile_index layout rank) layout then .ok none
  else do
    let ti ← cs_tile_index layout rank
    let second_edge :=
      if is_even ti ∧ on_tile_top (tile_subtile_index layout rank) layout then
        bottom_edge layout
      else right_edge layout
    let corner ← get_corner .TOP_RIGHT rank (top_edge layout) second_edge
    Except.ok (some corner)

/-- Embeds `CubedSpherePartitioner._bottom_left_corner(rank)`. -/
def bottom_left_corner (layout : Layout) (rank : Int) :
    Except PyError (Option SimpleBoundary) :=
  if on_tile_bottom (tile_subtile_index layout rank) ∧
      on_tile_left (tile_subtile_index layout rank) then .ok none
  else do
    let ti ← cs_tile_index layout rank
    let second_edge :=
      if ¬ is_even ti ∧ on_tile_bottom (tile_subtile_index layout rank) then
        top_edge layout
      else left_edge layout
    let corner ← get_corner .BOTTOM_LEFT rank (bottom_edge layout) second_edge
    Except.ok (some corner)

/-- Embeds `CubedSpherePartitioner._bottom_right_corner(rank)`. -/
def bottom_right_corner (layout : Layout) (rank : Int) :
    Except PyError (Option SimpleBoundary) :=
  if on_tile_bottom (tile_subtile_index layout rank) ∧
      on_tile_right (tile_subtile_index layout rank) layout then .ok none
  else do
    let ti ← cs_tile_index layout rank
    let second_edge :=
      if ¬ is_even ti ∧ on_tile_bottom (tile_subtile_index layout rank) then
        bottom_edge layout
      else right_edge layout
    let corner ← get_corner .BOTTOM_RIGHT rank (bottom_edge layout) second_edge
    Except.ok (some corner)

/-- Embeds `CubedSpherePartitioner.boundary(boundary_type, rank)`: dispatch on
the boundary type.  Edge results are wrapped in `some` so that all
eight types share the corner functions' result type (the edge
functions themselves never return an absent result). -/
def boundary (boundary_type : BoundaryType) (layout : Layout) (rank : Int) :
    Except PyError (Option SimpleBoundary) :=
  match boundary_type with
  | .LEFT => (left_edge layout rank).map some
  | .RIGHT => (right_edge layout rank).map some
  | .TOP => (top_edge layout rank).map some
  | .BOTTOM => (bottom_edge layout rank).map some
  | .TOP_LEFT => top_left_corner layout rank
  | .TOP_RIGHT => top_right_corner layout rank
  | .BOTTOM_LEFT => bottom_left_corner layout rank
  | .BOTTOM_RIGHT => bottom_right_corner layout rank

/-- The absence condition of the four corner queries: the rank's
face-local position is on both of the corner's two defining edges
(the source's own `on_tile_*` tests). -/
def corner_both_edges (ct : BoundaryType) (layout : Layout) (rank : Int) : Prop :=
  match ct with
  | .TOP_LEFT => tile_on_tile_top layout rank = true ∧ tile_on_tile_left layout rank = true
  | .TOP_RIGHT => tile_on_tile_top layout rank = true ∧ tile_on_tile_right layout rank = true
  | .BOTTOM_LEFT => tile_on_tile_bottom layout rank = true ∧ tile_on_tile_left layout rank = true
  | .BOTTOM_RIGHT => tile_on_tile_bottom layout rank = true ∧ tile_on_tile_right layout rank = true
  | _ => False

instance (ct : BoundaryType) (layout : Layout) (rank : Int) :
    Decidable (corner_both_edges ct layout rank) := by
  unfold corner_both_edges
  cases ct <;> infer_instance

/-- Modelled from the spec (corner truth table): the first edge
resolution composed for each corner query (`LEFT` for TOP_LEFT, `TOP`
for TOP_RIGHT, `BOTTOM` for BOTTOM_LEFT and BOTTOM_RIGHT). -/
def spec_corner_first (ct : BoundaryType) (layout : Layout) :
    Int → Except PyError SimpleBoundary :=
  match ct with
  | .TOP_LEFT => left_edge layout
  | .TOP_RIGHT => top_edge layout
  | .BOTTOM_LEFT => bottom_edge layout
  | _ => bottom_edge layout

/-- Modelled from the spec (corner truth table): the second edge
resolution for each corner, selected by the queried rank's face parity
(`face_index(rank) = rank / ranks_per_face`) and face-local
edge-membership (row `(rank mod F) / columns`, column
`(rank mod F) mod columns`): TOP_LEFT takes LEFT if the face is even
and the rank is on the left else TOP; TOP_RIGHT takes BOTTOM if even
and on top else RIGHT; BOTTOM_LEFT takes TOP if odd and on bottom else
LEFT; BOTTOM_RIGHT takes BOTTOM if odd and on bottom else RIGHT. -/
def spec_corner_second (ct : BoundaryType) (layout : Layout) (rank : Int) :
    Int → Except PyError SimpleBoundary :=
  let F := layout.1 * layout.2
  let even := rank / F % 2 = 0
  let row := rank % F / layout.2
  let col := rank % F % layout.2
  match ct with
  | .TOP_LEFT => if even ∧ col = 0 then left_edge layout else top_edge layout
  | .TOP_RIGHT => if even ∧ row = layout.1 - 1 then bottom_edge layout else right_edge layout
  | .BOTTOM_LEFT => if ¬ even ∧ row = 0 then top_edge layout else left_edge layout
  | .BOTTOM_RIGHT => if ¬ even ∧ row = 0 then bottom_edge layout else right_edge layout
  | _ => left_edge layout

/-- The closed-form coordinate transform that the specification states
for the rotation helper: a 90-degree **clockwise** rotation of an
`R x C` grid maps `(r, c)` to `(c, R - 1 - r)`, re-encoded row-major in
the rotated (`C x R`) grid.  Modelled from the spec's words, for
comparison with `rotate_subtile_rank`. -/
def spec_rotate_cw_closed_form (rank : Int) (layout : Layout) : Int :=
  rank % layout.2 * layout.1 + (layout.1 - 1 - rank / layout.2)

/-! ### Evaluation of the searched transforms

`np_where_first` scans for the unique matching position, so once the
match is exhibited and shown unique the search result is determined. -/

lemma find?_range_unique {p : Nat → Bool} {m q : Nat} (hq : q < m) (hp : p q = true)
    (huniq : ∀ k, k < m → p k = true → k = q) :
    (List.range m).find? p = some q := by
  induction m with
  | zero => omega
  | succ m ih =>
    rw [List.range_succ, List.find?_append]
    by_cases hqm : q < m
    · rw [ih hqm (fun k hk hpk => huniq k (Nat.lt_succ_of_lt hk) hpk)]
      rfl
    · have hq' : q = m := by omega
      subst hq'
      have hnone : (List.range q).find? p = none := by
        rw [List.find?_eq_none]
        intro x hx hpx
        have hxq := List.mem_range.mp hx
        have := huniq x (Nat.lt_succ_of_lt hxq) hpx
        omega
      rw [hnone]
      simp [List.find?, hp]

lemma np_where_first_eq {a : NpArray2} {v : Int} {i0 j0 : Nat}
    (hi : i0 < a.rows.toNat) (hj : j0 < a.cols.toNat)
    (hv : a.entry (Int.ofNat i0) (Int.ofNat j0) = v)
    (hu : ∀ i j : Nat, i < a.rows.toNat → j < a.cols.toNat →
      a.entry (Int.ofNat i) (Int.ofNat j) = v → i = i0 ∧ j = j0) :
    np_where_first a v = some (Int.ofNat i0, Int.ofNat j0) := by
  have hC : 0 < a.cols.toNat := by omega
  have hdiv : (i0 * a.cols.toNat + j0) / a.cols.toNat = i0 := by
    rw [Nat.mul_comm i0, Nat.mul_add_div hC, Nat.div_eq_of_lt hj, Nat.add_zero]
  have hmod : (i0 * a.cols.toNat + j0) % a.cols.toNat = j0 := by
    rw [Nat.mul_comm i0, Nat.mul_add_mod, Nat.mod_eq_of_lt hj]
  have hfound : (List.range (a.rows.toNat * a.cols.toNat)).find? (fun q =>
      a.entry (Int.ofNat (q / a.cols.toNat)) (Int.ofNat (q % a.cols.toNat)) == v) =
      some (i0 * a.cols.toNat + j0) := by
    apply find?_range_unique
    · calc i0 * a.cols.toNat + j0 < i0 * a.cols.toNat + a.cols.toNat := by omega
        _ = (i0 + 1) * a.cols.toNat := by ring
        _ ≤ a.rows.toNat * a.cols.toNat := Nat.mul_le_mul_right _ (by omega)
    · simp only [hdiv, hmod, hv, beq_self_eq_true]
    · intro k hk hpk
      have hka : k / a.cols.toNat < a.rows.toNat := by
        rw [Nat.div_lt_iff_lt_mul hC]
        omega
      have hkb : k % a.cols.toNat < a.cols.toNat := Nat.mod_lt _ hC
      have hke := hu _ _ hka hkb (by simpa using hpk)
      obtain ⟨h1, h2⟩ := hke
      rw [← h1, ← h2, Nat.mul_comm (k / a.cols.toNat) a.cols.toNat]
      exact (Nat.div_add_mod k a.cols.toNat).symm
  unfold np_where_first
  rw [hfound]
  show some (Int.ofNat ((i0 * a.cols.toNat + j0) / a.cols.toNat),
      Int.ofNat ((i0 * a.cols.toNat + j0) % a.cols.toNat)) = _
  rw [hdiv, hmod]

lemma int_box_decomp {C u x v y : Int} (hC : 0 < C) (hx0 : 0 ≤ x) (hx : x < C)
    (hy0 : 0 ≤ y) (hy : y < C) (h : u * C + x = v * C + y) : u = v ∧ x = y := by
  have hC' : C ≠ 0 := by omega
  have h1 : (u * C + x) / C = u := by
    rw [Int.add_comm, Int.add_mul_ediv_right _ _ hC',
      Int.ediv_eq_zero_of_lt hx0 hx, Int.zero_add]
  have h2 : (v * C + y) / C = v := by
    rw [Int.add_comm, Int.add_mul_ediv_right _ _ hC',
      Int.ediv_eq_zero_of_lt hy0 hy, Int.zero_add]
  rw [h, h2] at h1
  refine ⟨h1.symm, ?_⟩
  rw [h1] at h
  exact add_left_cancel h

lemma fliplr_subtile_rank_eq {R C t : Int} (hR : 0 < R) (hC : 0 < C)
    (ht0 : 0 ≤ t) (ht : t < R * C) :
    fliplr_subtile_rank t (R, C) = .ok (t / C * C + (C - 1 - t % C)) := by
  have hc0 : 0 ≤ t % C := Int.emod_nonneg t (by omega)
  have hcC : t % C < C := Int.emod_lt_of_pos t hC
  have hr0 : 0 ≤ t / C := Int.ediv_nonneg ht0 (by omega)
  have hrR : t / C < R := by
    rw [Int.ediv_lt_iff_lt_mul hC]
    linarith
  have hrc : C * (t / C) + t % C = t := Int.ediv_add_emod t C
  have h1 : Int.ofNat (t / C).toNat = t / C := Int.toNat_of_nonneg hr0
  have h2 : Int.ofNat (C - 1 - t % C).toNat = C - 1 - t % C :=
    Int.toNat_of_nonneg (by omega)
  have base : np_where_first (np_fliplr (np_arange_reshape R C)) t =
      some (Int.ofNat (t / C).toNat, Int.ofNat (C - 1 - t % C).toNat) := by
    apply np_where_first_eq
    · show (t / C).toNat < R.toNat
      omega
    · show (C - 1 - t % C).toNat < C.toNat
      omega
    · show (Int.ofNat (t / C).toNat) * C + (C - 1 - Int.ofNat (C - 1 - t % C).toNat) = t
      rw [h1, h2]
      linear_combination hrc
    · intro i j hi hj hij
      simp only [np_fliplr, np_arange_reshape, Int.ofNat_eq_natCast] at hi hj hij
      have hbox := int_box_decomp (u := (i : Int)) (x := C - 1 - (j : Int))
        (v := t / C) (y := t % C) hC (by omega) (by omega) hc0 hcC
        (by linear_combination hij - hrc)
      omega
  have hwhere : np_where_first (np_fliplr (np_arange_reshape R C)) t =
      some (t / C, C - 1 - t % C) := by
    rw [base, h1, h2]
  show transform_subtile_rank np_fliplr t (R, C) = _
  unfold transform_subtile_rank
  simp only [hwhere]
  simp only [np_index, np_arange_reshape]
  rw [if_pos]
  · exact ⟨hr0, hrR, by omega, by omega⟩

lemma flipud_subtile_rank_eq {R C t : Int} (hR : 0 < R) (hC : 0 < C)
    (ht0 : 0 ≤ t) (ht : t < R * C) :
    flipud_subtile_rank t (R, C) = .ok ((R - 1 - t / C) * C + t % C) := by
  have hc0 : 0 ≤ t % C := Int.emod_nonneg t (by omega)
  have hcC : t % C < C := Int.emod_lt_of_pos t hC
  have hr0 : 0 ≤ t / C := Int.ediv_nonneg ht0 (by omega)
  have hrR : t / C < R := by
    rw [Int.ediv_lt_iff_lt_mul hC]
    linarith
  have hrc : C * (t / C) + t % C = t := Int.ediv_add_emod t C
  have h1 : Int.ofNat (R - 1 - t / C).toNat = R - 1 - t / C :=
    Int.toNat_of_nonneg (by omega)
  have h2 : Int.ofNat (t % C).toNat = t % C := Int.toNat_of_nonneg hc0
  have base : np_where_first (np_flipud (np_arange_reshape R C)) t =
      some (Int.ofNat (R - 1 - t / C).toNat, Int.ofNat (t % C).toNat) := by
    apply np_where_first_eq
    · show (R - 1 - t / C).toNat < R.toNat
      omega
    · show (t % C).toNat < C.toNat
      omega
    · show (R - 1 - Int.ofNat (R - 1 - t / C).toNat) * C + Int.ofNat (t % C).toNat = t
      rw [h1, h2]
      linear_combination hrc
    · intro i j hi hj hij
      simp only [np_flipud, np_arange_reshape, Int.ofNat_eq_natCast] at hi hj hij
      have hbox := int_box_decomp (u := R - 1 - (i : Int)) (x := (j : Int))
        (v := t / C) (y := t % C) hC (by omega) (by omega) hc0 hcC
        (by linear_combination hij - hrc)
      omega
  have hwhere : np_where_first (np_flipud (np_arange_reshape R C)) t =
      some (R - 1 - t / C, t % C) := by
    rw [base, h1, h2]
  show transform_subtile_rank np_flipud t (R, C) = _
  unfold transform_subtile_rank
  simp only [hwhere]
  simp only [np_index, np_arange_reshape]
  rw [if_pos]
  · exact ⟨by omega, by omega, hc0, hcC⟩

lemma rotate_subtile_rank_eq {n t : Int} (hn : 0 < n) (ht0 : 0 ≤ t) (ht : t < n * n) :
    rotate_subtile_rank t (n, n) 1 = .ok ((n - 1 - t % n) * n + t / n) := by
  have hc0 : 0 ≤ t % n := Int.emod_nonneg t (by omega)
  have hcC : t % n < n := Int.emod_lt_of_pos t hn
  have hr0 : 0 ≤ t / n := Int.ediv_nonneg ht0 (by omega)
  have hrR : t / n < n := by
    rw [Int.ediv_lt_iff_lt_mul hn]
    linarith
  have hrc : n * (t / n) + t % n = t := Int.ediv_add_emod t n
  have h1 : Int.ofNat (n - 1 - t % n).toNat = n - 1 - t % n :=
    Int.toNat_of_nonneg (by omega)
  have h2 : Int.ofNat (t / n).toNat = t / n := Int.toNat_of_nonneg hr0
  have base : np_where_first (np_rot90 (np_arange_reshape n n)) t =
      some (Int.ofNat (n - 1 - t % n).toNat, Int.ofNat (t / n).toNat) := by
    apply np_where_first_eq
    · show (n - 1 - t % n).toNat < n.toNat
      omega
    · show (t / n).toNat < n.toNat
      omega
    · show (Int.ofNat (t / n).toNat) * n + (n - 1 - Int.ofNat (n - 1 - t % n).toNat) = t
      rw [h1, h2]
      linear_combination hrc
    · intro i j hi hj hij
      simp only [np_rot90, np_arange_reshape, Int.ofNat_eq_natCast] at hi hj hij
      have hbox := int_box_decomp (u := (j : Int)) (x := n - 1 - (i : Int))
        (v := t / n) (y := t % n) hn (by omega) (by omega) hc0 hcC
        (by linear_combination hij - hrc)
      omega
  have hwhere : np_where_first (np_rot90 (np_arange_reshape n n)) t =
      some (n - 1 - t % n, t / n) := by
    rw [base, h1, h2]
  unfold rotate_subtile_rank
  rw [if_neg (by omega), if_pos rfl]
  simp only [hwhere]
  simp only [np_index, np_arange_reshape]
  rw [if_pos]
  · exact ⟨by omega, by omega, hr0, hrR⟩

lemma transpose_subtile_rank_eq {n t : Int} (hn : 0 < n) (ht0 : 0 ≤ t) (ht : t < n * n) :
    transpose_subtile_rank t (n, n) = .ok ((t % n) * n + t / n) := by
  have hc0 : 0 ≤ t % n := Int.emod_nonneg t (by omega)
  have hcC : t % n < n := Int.emod_lt_of_pos t hn
  have hr0 : 0 ≤ t / n := Int.ediv_nonneg ht0 (by omega)
  have hrR : t / n < n := by
    rw [Int.ediv_lt_iff_lt_mul hn]
    linarith
  have hrc : n * (t / n) + t % n = t := Int.ediv_add_emod t n
  have h1 : Int.ofNat (t % n).toNat = t % n := Int.toNat_of_nonneg hc0
  have h2 : Int.ofNat (t / n).toNat = t / n := Int.toNat_of_nonneg hr0
  have base : np_where_first (np_transpose (np_arange_reshape n n)) t =
      some (Int.ofNat (t % n).toNat, Int.ofNat (t / n).toNat) := by
    apply np_where_first_eq
    · show (t % n).toNat < n.toNat
      omega
    · show (t / n).toNat < n.toNat
      omega
    · show (Int.ofNat (t / n).toNat) * n + Int.ofNat (t % n).toNat = t
      rw [h1, h2]
      linear_combination hrc
    · intro i j hi hj hij
      simp only [np_transpose, np_arange_reshape, Int.ofNat_eq_natCast] at hi hj hij
      have hbox := int_box_decomp (u := (j : Int)) (x := (i : Int))
        (v := t / n) (y := t % n) hn (by omega) (by omega) hc0 hcC
        (by linear_combination hij - hrc)
      omega
  have hwhere : np_where_first (np_transpose (np_arange_reshape n n)) t =
      some (t % n, t / n) := by
    rw [base, h1, h2]
  show transform_subtile_rank np_transpose t (n, n) = _
  unfold transform_subtile_rank
  simp only [hwhere]
  simp only [np_index, np_arange_reshape]
  rw [if_pos]
  · exact ⟨hc0, hcC, hr0, hrR⟩

/-! ### Closed-form evaluation of the four edge resolutions on square
layouts

For a square layout `(n, n)` write `w = rank % n²` for the face-local
rank, `w / n` for its row, `w % n` for its column and `rank / n²` for
the face index.  The lemmas below evaluate each edge function to an
explicit branch-by-branch form. -/

lemma except_bind_ok {ε α β : Type} (a : α) (f : α → Except ε β) :
    (Except.ok a >>= f : Except ε β) = f a := rfl

lemma except_bind_error {ε α β : Type} (e : ε) (f : α → Except ε β) :
    (Except.error e >>= f : Except ε β) = Except.error e := rfl

lemma cs_tile_index_eq (n rank : Int) :
    cs_tile_index (n, n) rank = .ok (rank / (n * n)) := by
  show get_tile_index rank (6 * (n * n)) = _
  unfold get_tile_index
  have h6 : (6 : Int) * (n * n) % 6 = 0 := Int.mul_emod_right 6 (n * n)
  rw [if_neg (by omega), Int.mul_ediv_cancel_left _ (by omega : (6:Int) ≠ 0)]

lemma ensure_square_layout_eq (n : Int) :
    ensure_square_layout (n, n) = .ok () := by
  simp [ensure_square_layout, is_square]

lemma fliplr_rotate_eq {n w : Int} (hn : 0 < n) (hw0 : 0 ≤ w) (hw1 : w < n * n) :
    fliplr_subtile_rank ((n - 1 - w % n) * n + w / n) (n, n) =
      .ok ((n - 1 - w % n) * n + (n - 1 - w / n)) := by
  have hr0 : 0 ≤ w / n := Int.ediv_nonneg hw0 (by omega)
  have hr1 : w / n < n := by
    rw [Int.ediv_lt_iff_lt_mul hn]
    linarith
  have hc0 : 0 ≤ w % n := Int.emod_nonneg _ (by omega)
  have hc1 : w % n < n := Int.emod_lt_of_pos _ hn
  have hx0 : 0 ≤ (n - 1 - w % n) * n + w / n := by nlinarith
  have hx1 : (n - 1 - w % n) * n + w / n < n * n := by nlinarith
  have hxd : ((n - 1 - w % n) * n + w / n) / n = n - 1 - w % n := by
    rw [add_comm, Int.add_mul_ediv_right _ _ (by omega : n ≠ 0),
      Int.ediv_eq_zero_of_lt hr0 hr1, zero_add]
  have hxm : ((n - 1 - w % n) * n + w / n) % n = w / n := by
    rw [add_comm, Int.add_mul_emod_self, Int.emod_eq_of_lt hr0 hr1]
  rw [fliplr_subtile_rank_eq hn hn hx0 hx1, hxd, hxm]

lemma left_edge_eval (n rank : Int) (hn : 0 < n) :
    left_edge (n, n) rank = .ok
      { boundary_type := .LEFT, from_rank := rank,
        to_rank := (if rank % (n * n) % n = 0 then
            if rank / (n * n) % 2 = 0 then
              (rank / (n * n) - 2) * (n * n) +
                ((n - 1 - rank % (n * n) % n) * n + (n - 1 - rank % (n * n) / n))
            else rank - n * n + n - 1
          else rank - 1) % (6 * (n * n)),
        n_clockwise_rotations :=
          if rank % (n * n) % n = 0 ∧ rank / (n * n) % 2 = 0 then 1 else 0 } := by
  have hT : (0 : Int) < n * n := mul_pos hn hn
  have hT' : (n : Int) * n ≠ 0 := by omega
  have hw0 : 0 ≤ rank % (n * n) := Int.emod_nonneg _ hT'
  have hw1 : rank % (n * n) < n * n := Int.emod_lt_of_pos _ hT
  have hLb : tile_on_tile_left (n, n) rank = true ↔ rank % (n * n) % n = 0 := by
    simp [tile_on_tile_left, on_tile_left, tile_subtile_index, subtile_index,
      tile_total_ranks]
  have hmaster : tile_master_rank (n, n) (rank - 2 * (n * n)) =
      (rank / (n * n) - 2) * (n * n) := by
    show (n * n) * ((rank - 2 * (n * n)) / (n * n)) = _
    have h2 : rank - 2 * (n * n) = rank + (-2) * (n * n) := by ring
    rw [h2, Int.add_mul_ediv_right _ _ hT']
    ring
  unfold left_edge
  simp only [tile_total_ranks, cs_total_ranks]
  rw [ensure_square_layout_eq]
  simp only [except_bind_ok]
  by_cases hL : rank % (n * n) % n = 0
  · rw [if_pos (hLb.mpr hL), cs_tile_index_eq]
    simp only [except_bind_ok]
    by_cases hE : rank / (n * n) % 2 = 0
    · have hEb : is_even (rank / (n * n)) = true := by
        simp [is_even]
        omega
      rw [if_pos hEb, rotate_subtile_rank_eq hn hw0 hw1]
      simp only [except_bind_ok]
      rw [fliplr_rotate_eq hn hw0 hw1]
      simp only [except_bind_ok, hmaster]
      rw [if_pos hL, if_pos hE, if_pos ⟨hL, hE⟩]
    · have hEb : ¬ (is_even (rank / (n * n)) = true) := by
        simp [is_even]
        omega
      rw [if_neg hEb, if_pos hL, if_neg hE, if_neg (by tauto)]
  · rw [if_neg (fun h => hL (hLb.mp h)), if_neg hL, if_neg (by tauto)]

lemma right_edge_eval (n rank : Int) (hn : 0 < n) :
    right_edge (n, n) rank = .ok
      { boundary_type := .RIGHT, from_rank := rank,
        to_rank := (if rank % (n * n) % n = n - 1 then
            if ¬ rank / (n * n) % 2 = 0 then
              (rank / (n * n) + 2) * (n * n) +
                ((n - 1 - rank % (n * n) % n) * n + (n - 1 - rank % (n * n) / n))
            else rank + n * n - n + 1
          else rank + 1) % (6 * (n * n)),
        n_clockwise_rotations :=
          if rank % (n * n) % n = n - 1 ∧ ¬ rank / (n * n) % 2 = 0 then 1 else 0 } := by
  have hT : (0 : Int) < n * n := mul_pos hn hn
  have hT' : (n : Int) * n ≠ 0 := by omega
  have hw0 : 0 ≤ rank % (n * n) := Int.emod_nonneg _ hT'
  have hw1 : rank % (n * n) < n * n := Int.emod_lt_of_pos _ hT
  have hRb : tile_on_tile_right (n, n) rank = true ↔ rank % (n * n) % n = n - 1 := by
    simp [tile_on_tile_right, on_tile_right, tile_subtile_index, subtile_index,
      tile_total_ranks]
  have hmaster : tile_master_rank (n, n) (rank + 2 * (n * n)) =
      (rank / (n * n) + 2) * (n * n) := by
    show (n * n) * ((rank + 2 * (n * n)) / (n * n)) = _
    have h2 : rank + 2 * (n * n) = rank + 2 * (n * n) := rfl
    rw [Int.add_mul_ediv_right _ _ hT']
    ring
  unfold right_edge
  simp only [tile_total_ranks, cs_total_ranks]
  rw [ensure_square_layout_eq]
  simp only [except_bind_ok]
  by_cases hR : rank % (n * n) % n = n - 1
  · rw [if_pos (hRb.mpr hR), cs_tile_index_eq]
    simp only [except_bind_ok]
    by_cases hE : rank / (n * n) % 2 = 0
    · have hEb : ¬ ¬ (is_even (rank / (n * n)) = true) := by
        simp [is_even]
        omega
      rw [if_neg hEb, if_pos hR, if_neg (fun hcon => hcon hE), if_neg (by tauto)]
    · have hEb : ¬ (is_even (rank / (n * n)) = true) := by
        simp [is_even]
        omega
      rw [if_pos hEb, rotate_subtile_rank_eq hn hw0 hw1]
      simp only [except_bind_ok]
      rw [fliplr_rotate_eq hn hw0 hw1]
      simp only [except_bind_ok, hmaster]
      rw [if_pos hR, if_pos hE, if_pos ⟨hR, hE⟩]
  · rw [if_neg (fun h => hR (hRb.mp h)), if_neg hR, if_neg (by tauto)]

lemma top_edge_eval (n rank : Int) (hn : 0 < n) :
    top_edge (n, n) rank = .ok
      { boundary_type := .TOP, from_rank := rank,
        to_rank := (if rank % (n * n) / n = n - 1 then
            if rank / (n * n) % 2 = 0 then
              (rank / (n * n) + 2) * (n * n) +
                ((n - 1 - rank % (n * n) % n) * n + (n - 1 - rank % (n * n) / n))
            else
              (rank / (n * n) + 1) * (n * n) +
                ((n - 1 - rank % (n * n) / n) * n + rank % (n * n) % n)
          else rank + n) % (6 * (n * n)),
        n_clockwise_rotations :=
          if rank % (n * n) / n = n - 1 ∧ rank / (n * n) % 2 = 0 then 3 else 0 } := by
  have hT : (0 : Int) < n * n := mul_pos hn hn
  have hT' : (n : Int) * n ≠ 0 := by omega
  have hw0 : 0 ≤ rank % (n * n) := Int.emod_nonneg _ hT'
  have hw1 : rank % (n * n) < n * n := Int.emod_lt_of_pos _ hT
  have hTb : tile_on_tile_top (n, n) rank = true ↔ rank % (n * n) / n = n - 1 := by
    simp [tile_on_tile_top, on_tile_top, tile_subtile_index, subtile_index,
      tile_total_ranks]
  unfold top_edge
  simp only [tile_total_ranks, cs_total_ranks]
  rw [ensure_square_layout_eq]
  simp only [except_bind_ok]
  by_cases hTop : rank % (n * n) / n = n - 1
  · rw [if_pos (hTb.mpr hTop), cs_tile_index_eq]
    simp only [except_bind_ok]
    by_cases hE : rank / (n * n) % 2 = 0
    · have hEb : is_even (rank / (n * n)) = true := by
        simp [is_even]
        omega
      rw [if_pos hEb, rotate_subtile_rank_eq hn hw0 hw1]
      simp only [except_bind_ok]
      rw [fliplr_rotate_eq hn hw0 hw1]
      simp only [except_bind_ok]
      rw [if_pos hTop, if_pos hE, if_pos ⟨hTop, hE⟩]
    · have hEb : ¬ (is_even (rank / (n * n)) = true) := by
        simp [is_even]
        omega
      rw [if_neg hEb, flipud_subtile_rank_eq hn hn hw0 hw1]
      simp only [except_bind_ok]
      rw [if_pos hTop, if_neg hE, if_neg (by tauto)]
  · rw [if_neg (fun h => hTop (hTb.mp h)), if_neg hTop, if_neg (by tauto)]

lemma bottom_edge_eval (n rank : Int) (hn : 0 < n) :
    bottom_edge (n, n) rank = .ok
      { boundary_type := .BOTTOM, from_rank := rank,
        to_rank := (if rank % (n * n) / n = 0 ∧ ¬ rank / (n * n) % 2 = 0 then
            (rank / (n * n) - 2) * (n * n) +
              ((n - 1 - rank % (n * n) % n) * n + (n - 1 - rank % (n * n) / n))
          else rank - n) % (6 * (n * n)),
        n_clockwise_rotations :=
          if rank % (n * n) / n = 0 ∧ ¬ rank / (n * n) % 2 = 0 then 3 else 0 } := by
  have hT : (0 : Int) < n * n := mul_pos hn hn
  have hT' : (n : Int) * n ≠ 0 := by omega
  have hw0 : 0 ≤ rank % (n * n) := Int.emod_nonneg _ hT'
  have hw1 : rank % (n * n) < n * n := Int.emod_lt_of_pos _ hT
  have hBb : tile_on_tile_bottom (n, n) rank = true ↔ rank % (n * n) / n = 0 := by
    simp [tile_on_tile_bottom, on_tile_bottom, tile_subtile_index, subtile_index,
      tile_total_ranks]
  unfold bottom_edge
  simp only [tile_total_ranks, cs_total_ranks]
  rw [ensure_square_layout_eq]
  simp only [except_bind_ok]
  rw [cs_tile_index_eq]
  simp only [except_bind_ok]
  by_cases hB : rank % (n * n) / n = 0 ∧ ¬ rank / (n * n) % 2 = 0
  · have hEb : ¬ (is_even (rank / (n * n)) = true) := by
      simp [is_even]
      omega
    rw [if_pos ⟨hBb.mpr hB.1, hEb⟩, rotate_subtile_rank_eq hn hw0 hw1]
    simp only [except_bind_ok]
    rw [fliplr_rotate_eq hn hw0 hw1]
    simp only [except_bind_ok]
    rw [if_pos hB, if_pos hB]
  · have hnot : ¬ (tile_on_tile_bottom (n, n) rank = true ∧
        ¬ (is_even (rank / (n * n)) = true)) := by
      intro hcon
      apply hB
      refine ⟨hBb.mp hcon.1, ?_⟩
      intro habs
      exact hcon.2 (by simp [is_even]; omega)
    rw [if_neg hnot, if_neg hB, if_neg hB]

/-! ### Further evaluation helpers -/

lemma tile_on_left_iff (n rank : Int) :
    tile_on_tile_left (n, n) rank = true ↔ rank % (n * n) % n = 0 := by
  simp [tile_on_tile_left, on_tile_left, tile_subtile_index, subtile_index,
    tile_total_ranks]

lemma tile_on_right_iff (n rank : Int) :
    tile_on_tile_right (n, n) rank = true ↔ rank % (n * n) % n = n - 1 := by
  simp [tile_on_tile_right, on_tile_right, tile_subtile_index, subtile_index,
    tile_total_ranks]

lemma tile_on_top_iff (n rank : Int) :
    tile_on_tile_top (n, n) rank = true ↔ rank % (n * n) / n = n - 1 := by
  simp [tile_on_tile_top, on_tile_top, tile_subtile_index, subtile_index,
    tile_total_ranks]

lemma tile_on_bottom_iff (n rank : Int) :
    tile_on_tile_bottom (n, n) rank = true ↔ rank % (n * n) / n = 0 := by
  simp [tile_on_tile_bottom, on_tile_bottom, tile_subtile_index, subtile_index,
    tile_total_ranks]

lemma cs_tile_index_ok (layout : Layout) (rank : Int) :
    cs_tile_index layout rank = .ok (rank / (layout.1 * layout.2)) := by
  show get_tile_index rank (6 * (layout.1 * layout.2)) = _
  unfold get_tile_index
  have h6 : (6 : Int) * (layout.1 * layout.2) % 6 = 0 :=
    Int.mul_emod_right 6 (layout.1 * layout.2)
  rw [if_neg (by omega), Int.mul_ediv_cancel_left _ (by omega : (6:Int) ≠ 0)]

/-- Normalising a cross-face target `m * n² + tt` modulo the six-face
total: the face index becomes `m % 6` and the face-local rank `tt` is
preserved. -/
lemma cross_norm {n m tt : Int} (hn : 0 < n) (h0 : 0 ≤ tt) (h1 : tt < n * n) :
    (m * (n * n) + tt) % (6 * (n * n)) = m % 6 * (n * n) + tt := by
  have hT : (0 : Int) < n * n := mul_pos hn hn
  have hm0 : 0 ≤ m % 6 := Int.emod_nonneg _ (by omega)
  have hm6 : m % 6 < 6 := Int.emod_lt_of_pos _ (by omega)
  have hmodeq : m * (n * n) ≡ m % 6 * (n * n) [ZMOD 6 * (n * n)] := by
    apply Int.modEq_iff_dvd.mpr
    have hrep : m % 6 * (n * n) - m * (n * n) = 6 * (n * n) * (-(m / 6)) := by
      have hm : m % 6 = m - 6 * (m / 6) := by rw [Int.emod_def]
      rw [hm]
      ring
    exact Dvd.intro _ hrep.symm
  have h5 : m % 6 * (n * n) ≤ 5 * (n * n) := by nlinarith
  have hlo : 0 ≤ m % 6 * (n * n) + tt := by nlinarith
  have hhi : m % 6 * (n * n) + tt < 6 * (n * n) := by nlinarith
  calc (m * (n * n) + tt) % (6 * (n * n))
      = (m % 6 * (n * n) + tt) % (6 * (n * n)) := Int.ModEq.add_right tt hmodeq
    _ = m % 6 * (n * n) + tt := Int.emod_eq_of_lt hlo hhi

/-- Decomposing a canonical `a * n + b` with `0 ≤ b < n`. -/
lemma canonical_div_emod {n a b : Int} (hn : 0 < n) (hb0 : 0 ≤ b) (hb : b < n) :
    (a * n + b) / n = a ∧ (a * n + b) % n = b := by
  constructor
  · rw [add_comm, Int.add_mul_ediv_right _ _ (by omega : n ≠ 0),
      Int.ediv_eq_zero_of_lt hb0 hb, zero_add]
  · rw [add_comm, Int.add_mul_emod_self, Int.emod_eq_of_lt hb0 hb]

lemma emod6_parity (m : Int) : m % 6 % 2 = m % 2 :=
  Int.emod_emod_of_dvd m (by norm_num)

lemma add_two_emod_two (f : Int) : (f + 2) % 2 = f % 2 := by
  have h : f + 2 = f + 1 * 2 := by ring
  rw [h, Int.add_mul_emod_self]

lemma sub_two_emod_two (f : Int) : (f - 2) % 2 = f % 2 := by
  have h : f - 2 = f + (-1) * 2 := by ring
  rw [h, Int.add_mul_emod_self]

lemma get_corner_eval {e1f e2f : Int → Except PyError SimpleBoundary} {rank : Int}
    {b1 b2 : SimpleBoundary} (bt : BoundaryType)
    (h1 : e1f rank = .ok b1) (h2 : e2f b1.to_rank = .ok b2) :
    get_corner bt rank e1f e2f = .ok
      { boundary_type := bt, from_rank := rank, to_rank := b2.to_rank,
        n_clockwise_rotations :=
          b1.n_clockwise_rotations + b2.n_clockwise_rotations } := by
  unfold get_corner
  rw [h1]
  simp only [except_bind_ok]
  rw [h2]
  rfl

lemma corner_compose_fields {e1f e2f : Int → Except PyError SimpleBoundary}
    {rank : Int} {bt : BoundaryType} {d e1 e2 : SimpleBoundary}
    (hd : (get_corner bt rank e1f e2f >>= fun c => Except.ok (some c)) = .ok (some d))
    (he1 : e1f rank = .ok e1) (he2 : e2f e1.to_rank = .ok e2) :
    d = { boundary_type := bt, from_rank := rank, to_rank := e2.to_rank,
          n_clockwise_rotations :=
            e1.n_clockwise_rotations + e2.n_clockwise_rotations } := by
  rw [get_corner_eval bt he1 he2] at hd
  simp only [except_bind_ok, Except.ok.injEq, Option.some.injEq] at hd
  exact hd.symm

lemma ensure_square_layout_nonsquare {layout : Layout}
    (hns : layout.1 ≠ layout.2) :
    ensure_square_layout layout = .error .notImplementedError := by
  unfold ensure_square_layout
  rw [if_pos]
  simp [is_square]
  exact hns

lemma edges_nonsquare {layout : Layout} (rank : Int)
    (hns : layout.1 ≠ layout.2) :
    left_edge layout rank = .error .notImplementedError ∧
    right_edge layout rank = .error .notImplementedError ∧
    top_edge layout rank = .error .notImplementedError ∧
    bottom_edge layout rank = .error .notImplementedError := by
  refine ⟨?_, ?_, ?_, ?_⟩
  · unfold left_edge
    rw [ensure_square_layout_nonsquare hns]
    rfl
  · unfold right_edge
    rw [ensure_square_layout_nonsquare hns]
    rfl
  · unfold top_edge
    rw [ensure_square_layout_nonsquare hns]
    rfl
  · unfold bottom_edge
    rw [ensure_square_layout_nonsquare hns]
    rfl

/-! ### Claim theorems -/

/-- C4: for layout `(1, 1)` (six ranks, one per face),
`boundary(LEFT, 0)` resolves by the even-face LEFT rule to target rank
4 with rotation 1 (face `0 - 2` taken modulo the six faces via
master-rank arithmetic, face-local rank fixed by the transforms on a
`1 × 1` grid). -/
theorem left_boundary_layout11_rank0 :
    boundary .LEFT (1, 1) 0 = .ok (some
      { boundary_type := .LEFT, from_rank := 0, to_rank := 4,
        n_clockwise_rotations := 1 }) := by decide

/-- C7 (counterexample): the rotation helper does not realise the
spec's clockwise closed form.  At layout `(2, 2)`, rank 0 sits at
`(0, 0)`; the spec's clockwise map sends it to `(0, 1)`, i.e. rank 1,
but the helper (built on numpy's counterclockwise `rot90`) returns
rank 2.  Moreover on the non-square layout `(1, 2)` the transpose
helper raises `IndexError` instead of returning a value at all. -/
theorem rotate_closed_form_mismatch :
    rotate_subtile_rank 0 (2, 2) 1 = .ok 2 ∧
    spec_rotate_cw_closed_form 0 (2, 2) = 1 ∧
    transpose_subtile_rank 1 (1, 2) = .error .indexError := by decide

/-- C7 (amended): each transform helper equals a closed-form
coordinate transform, but the rotation's closed form is
`(r, c) ↦ (C − 1 − c, r)` — the *inverse* of the spec's clockwise map,
because numpy's `rot90` turns counterclockwise — and rotation and
transposition are only total on square layouts (on non-square layouts
the search indexes out of bounds); the two flips hold for arbitrary
`R × C`. -/
theorem transform_search_closed_forms (R C t : Int) (hR : 0 < R) (hC : 0 < C)
    (ht0 : 0 ≤ t) (ht : t < R * C) :
    fliplr_subtile_rank t (R, C) = .ok (t / C * C + (C - 1 - t % C)) ∧
    flipud_subtile_rank t (R, C) = .ok ((R - 1 - t / C) * C + t % C) ∧
    (R = C → rotate_subtile_rank t (R, C) 1 = .ok ((C - 1 - t % C) * C + t / C) ∧
      transpose_subtile_rank t (R, C) = .ok (t % C * C + t / C)) := by
  refine ⟨fliplr_subtile_rank_eq hR hC ht0 ht,
    flipud_subtile_rank_eq hR hC ht0 ht, ?_⟩
  intro hRC
  subst hRC
  exact ⟨rotate_subtile_rank_eq hR ht0 ht, transpose_subtile_rank_eq hR ht0 ht⟩

theorem transform_search_closed_forms_witness :
    ((0:Int) < 2) ∧ ((0:Int) < 2) ∧ ((0:Int) ≤ 3) ∧ ((3:Int) < 2 * 2) ∧
    (fliplr_subtile_rank 3 (2, 2) = .ok (3 / 2 * 2 + (2 - 1 - 3 % 2)) ∧
     flipud_subtile_rank 3 (2, 2) = .ok ((2 - 1 - 3 / 2) * 2 + 3 % 2) ∧
     ((2:Int) = 2 → rotate_subtile_rank 3 (2, 2) 1 = .ok ((2 - 1 - 3 % 2) * 2 + 3 / 2) ∧
       transpose_subtile_rank 3 (2, 2) = .ok (3 % 2 * 2 + 3 / 2))) :=
  ⟨by decide, by decide, by decide, by decide,
    transform_search_closed_forms 2 2 3 (by decide) (by decide) (by decide) (by decide)⟩

/-- C5 (counterexample): on the non-square layout `(1, 2)`, the
TOP_LEFT corner query for rank 0 (which sits on both defining edges of
its face) returns an absent result instead of signalling the
unsupported-layout error: the absence check precedes the layout
check. -/
theorem nonsquare_corner_absent_no_error :
    boundary .TOP_LEFT (1, 2) 0 = .ok none := by decide

/-- C5 (amended): on a non-square layout every edge query signals the
unsupported-layout error, and a corner query signals it unless the
rank sits on both of the corner's defining edges, in which case the
absent result is returned before the layout is ever checked. -/
theorem nonsquare_boundary_rejects (layout : Layout) (rank : Int)
    (bt : BoundaryType) (hns : layout.1 ≠ layout.2) :
    boundary bt layout rank =
      match bt with
      | .TOP_LEFT | .TOP_RIGHT | .BOTTOM_LEFT | .BOTTOM_RIGHT =>
          if corner_both_edges bt layout rank then .ok none
          else .error .notImplementedError
      | _ => .error .notImplementedError := by
  obtain ⟨hL, hR, hT, hB⟩ := edges_nonsquare rank hns
  cases bt
  case LEFT => simp only [boundary]; rw [hL]; rfl
  case RIGHT => simp only [boundary]; rw [hR]; rfl
  case TOP => simp only [boundary]; rw [hT]; rfl
  case BOTTOM => simp only [boundary]; rw [hB]; rfl
  case TOP_LEFT =>
    show top_left_corner layout rank =
      if corner_both_edges .TOP_LEFT layout rank then Except.ok none
      else Except.error PyError.notImplementedError
    unfold top_left_corner
    by_cases hBoth : tile_on_tile_top layout rank = true ∧
        tile_on_tile_left layout rank = true
    · rw [if_pos hBoth,
        if_pos (show corner_both_edges .TOP_LEFT layout rank from hBoth)]
    · rw [if_neg hBoth,
        if_neg (show ¬ corner_both_edges .TOP_LEFT layout rank from hBoth),
        cs_tile_index_ok]
      simp only [except_bind_ok]
      unfold get_corner
      rw [hL]
      rfl
  case TOP_RIGHT =>
    show top_right_corner layout rank =
      if corner_both_edges .TOP_RIGHT layout rank then Except.ok none
      else Except.error PyError.notImplementedError
    unfold top_right_corner
    by_cases hBoth : on_tile_top (tile_subtile_index layout rank) layout = true ∧
        on_tile_right (tile_subtile_index layout rank) layout = true
    · rw [if_pos hBoth,
        if_pos (show corner_both_edges .TOP_RIGHT layout rank from hBoth)]
    · rw [if_neg hBoth,
        if_neg (show ¬ corner_both_edges .TOP_RIGHT layout rank from hBoth),
        cs_tile_index_ok]
      simp only [except_bind_ok]
      unfold get_corner
      rw [hT]
      rfl
  case BOTTOM_LEFT =>
    show bottom_left_corner layout rank =
      if corner_both_edges .BOTTOM_LEFT layout rank then Except.ok none
      else Except.error PyError.notImplementedError
    unfold bottom_left_corner
    by_cases hBoth : on_tile_bottom (tile_subtile_index layout rank) = true ∧
        on_tile_left (tile_subtile_index layout rank) = true
    · rw [if_pos hBoth,
        if_pos (show corner_both_edges .BOTTOM_LEFT layout rank from hBoth)]
    · rw [if_neg hBoth,
        if_neg (show ¬ corner_both_edges .BOTTOM_LEFT layout rank from hBoth),
        cs_tile_index_ok]
      simp only [except_bind_ok]
      unfold get_corner
      rw [hB]
      rfl
  case BOTTOM_RIGHT =>
    show bottom_right_corner layout rank =
      if corner_both_edges .BOTTOM_RIGHT layout rank then Except.ok none
      else Except.error PyError.notImplementedError
    unfold bottom_right_corner
    by_cases hBoth : on_tile_bottom (tile_subtile_index layout rank) = true ∧
        on_tile_right (tile_subtile_index layout rank) layout = true
    · rw [if_pos hBoth,
        if_pos (show corner_both_edges .BOTTOM_RIGHT layout rank from hBoth)]
    · rw [if_neg hBoth,
        if_neg (show ¬ corner_both_edges .BOTTOM_RIGHT layout rank from hBoth),
        cs_tile_index_ok]
      simp only [except_bind_ok]
      unfold get_corner
      rw [hB]
      rfl

theorem nonsquare_boundary_rejects_witness :
    ((1:Int), (2:Int)).1 ≠ ((1:Int), (2:Int)).2 ∧
    boundary .LEFT (1, 2) 3 =
      (match BoundaryType.LEFT with
        | .TOP_LEFT | .TOP_RIGHT | .BOTTOM_LEFT | .BOTTOM_RIGHT =>
            if corner_both_edges .LEFT (1, 2) 3 then Except.ok none
            else Except.error PyError.notImplementedError
        | _ => Except.error PyError.notImplementedError) :=
  ⟨by decide, nonsquare_boundary_rejects (1, 2) 3 .LEFT (by decide)⟩

/-- C6 (counterexample): on the non-square layout `(1, 2)`, rank 1 is
*not* on the left edge of its face, yet `boundary(LEFT, 1)` signals
the unsupported-layout error instead of returning the same-face
neighbor: the square-layout check runs before the edge-membership
test on every edge query. -/
theorem nonsquare_interior_edge_rejected :
    boundary .LEFT (1, 2) 1 = .error .notImplementedError := by decide

/-- C6 (amended): same-face interior edge neighbors are produced only
under square layouts.  A non-square layout is rejected for every edge
query, even for ranks not on the relevant face edge; under a square
layout `(n, n)`, a rank not on the relevant face edge resolves to the
adjacent same-face rank (offset `-1`/`+1` for LEFT/RIGHT and
`+n`/`-n` for TOP/BOTTOM, taken modulo the six-face total) with
rotation 0. -/
theorem interior_edge_same_face_neighbor (n rank : Int) (bt : BoundaryType)
    (nonsq : Layout) (hn : 0 < n) (hns : nonsq.1 ≠ nonsq.2)
    (hbt : bt = .LEFT ∨ bt = .RIGHT ∨ bt = .TOP ∨ bt = .BOTTOM)
    (hedge : ¬ (match bt with
      | .LEFT => tile_on_tile_left (n, n) rank
      | .RIGHT => tile_on_tile_right (n, n) rank
      | .TOP => tile_on_tile_top (n, n) rank
      | _ => tile_on_tile_bottom (n, n) rank) = true) :
    boundary bt nonsq rank = .error .notImplementedError ∧
    boundary bt (n, n) rank = .ok (some
      { boundary_type := bt, from_rank := rank,
        to_rank := (match bt with
          | .LEFT => rank - 1
          | .RIGHT => rank + 1
          | .TOP => rank + n
          | _ => rank - n) % (6 * (n * n)),
        n_clockwise_rotations := 0 }) := by
  obtain ⟨hL, hR, hT, hB⟩ := edges_nonsquare rank hns
  rcases hbt with h | h | h | h <;> subst h
  · refine ⟨by simp only [boundary]; rw [hL]; rfl, ?_⟩
    have hc : ¬ rank % (n * n) % n = 0 :=
      fun hcon => hedge ((tile_on_left_iff n rank).mpr hcon)
    simp only [boundary]
    rw [left_edge_eval n rank hn, if_neg hc, if_neg (fun hcon => hc hcon.1)]
    rfl
  · refine ⟨by simp only [boundary]; rw [hR]; rfl, ?_⟩
    have hc : ¬ rank % (n * n) % n = n - 1 :=
      fun hcon => hedge ((tile_on_right_iff n rank).mpr hcon)
    simp only [boundary]
    rw [right_edge_eval n rank hn, if_neg hc, if_neg (fun hcon => hc hcon.1)]
    rfl
  · refine ⟨by simp only [boundary]; rw [hT]; rfl, ?_⟩
    have hc : ¬ rank % (n * n) / n = n - 1 :=
      fun hcon => hedge ((tile_on_top_iff n rank).mpr hcon)
    simp only [boundary]
    rw [top_edge_eval n rank hn, if_neg hc, if_neg (fun hcon => hc hcon.1)]
    rfl
  · refine ⟨by simp only [boundary]; rw [hB]; rfl, ?_⟩
    have hc : ¬ rank % (n * n) / n = 0 :=
      fun hcon => hedge ((tile_on_bottom_iff n rank).mpr hcon)
    simp only [boundary]
    rw [bottom_edge_eval n rank hn, if_neg (fun hcon => hc hcon.1),
      if_neg (fun hcon => hc hcon.1)]
    rfl

theorem interior_edge_same_face_neighbor_witness :
    ((0:Int) < 2) ∧ ((1:Int), (2:Int)).1 ≠ ((1:Int), (2:Int)).2 ∧
    ¬ (tile_on_tile_left (2, 2) 5 = true) ∧
    (boundary .LEFT (1, 2) 5 = .error .notImplementedError ∧
     boundary .LEFT (2, 2) 5 = .ok (some
       { boundary_type := .LEFT, from_rank := 5, to_rank := (5 - 1) % (6 * (2 * 2)),
         n_clockwise_rotations := 0 })) :=
  ⟨by decide, by decide, by decide,
    interior_edge_same_face_neighbor 2 5 .LEFT (1, 2) (by decide) (by decide)
      (Or.inl rfl) (by decide)⟩

/-- C10: on a square layout, each of the four edge queries returns a
descriptor whose `from_rank` is the queried rank, whose
`boundary_type` is the queried type, and whose `to_rank` lies in
`[0, total_ranks)` — the final reduction modulo `total_ranks` is
applied on every code path, so same-face offsets that go negative
wrap instead of producing a negative rank. -/
theorem edge_descriptor_invariants (n rank : Int) (bt : BoundaryType)
    (hn : 0 < n) (hr0 : 0 ≤ rank) (hr1 : rank < 6 * (n * n))
    (hbt : bt = .LEFT ∨ bt = .RIGHT ∨ bt = .TOP ∨ bt = .BOTTOM) :
    ∃ d, boundary bt (n, n) rank = .ok (some d) ∧ d.from_rank = rank ∧
      d.boundary_type = bt ∧ 0 ≤ d.to_rank ∧ d.to_rank < 6 * (n * n) := by
  have hT6 : (0:Int) < 6 * (n * n) := by positivity
  rcases hbt with h | h | h | h <;> subst h
  · simp only [boundary]
    rw [left_edge_eval n rank hn]
    exact ⟨_, rfl, rfl, rfl, Int.emod_nonneg _ (by omega), Int.emod_lt_of_pos _ hT6⟩
  · simp only [boundary]
    rw [right_edge_eval n rank hn]
    exact ⟨_, rfl, rfl, rfl, Int.emod_nonneg _ (by omega), Int.emod_lt_of_pos _ hT6⟩
  · simp only [boundary]
    rw [top_edge_eval n rank hn]
    exact ⟨_, rfl, rfl, rfl, Int.emod_nonneg _ (by omega), Int.emod_lt_of_pos _ hT6⟩
  · simp only [boundary]
    rw [bottom_edge_eval n rank hn]
    exact ⟨_, rfl, rfl, rfl, Int.emod_nonneg _ (by omega), Int.emod_lt_of_pos _ hT6⟩

theorem edge_descriptor_invariants_witness :
    ((0:Int) < 1) ∧ ((0:Int) ≤ 0) ∧ ((0:Int) < 6 * (1 * 1)) ∧
    (∃ d, boundary .BOTTOM (1, 1) 0 = .ok (some d) ∧ d.from_rank = 0 ∧
      d.boundary_type = .BOTTOM ∧ 0 ≤ d.to_rank ∧ d.to_rank < 6 * (1 * 1)) :=
  ⟨by decide, by decide, by decide,
    edge_descriptor_invariants 1 0 .BOTTOM (by decide) (by decide) (by decide)
      (Or.inr (Or.inr (Or.inr rfl)))⟩

lemma is_even_iff (x : Int) : is_even x = true ↔ x % 2 = 0 := by
  simp [is_even]

lemma edge_always_ok {n : Int} (hn : 0 < n)
    {e : Int → Except PyError SimpleBoundary}
    (he : e = left_edge (n, n) ∨ e = right_edge (n, n) ∨ e = top_edge (n, n) ∨
      e = bottom_edge (n, n)) (x : Int) : ∃ b, e x = .ok b := by
  rcases he with h | h | h | h <;> subst h
  · exact ⟨_, left_edge_eval n x hn⟩
  · exact ⟨_, right_edge_eval n x hn⟩
  · exact ⟨_, top_edge_eval n x hn⟩
  · exact ⟨_, bottom_edge_eval n x hn⟩

lemma corner_else_some {n rank : Int} (hn : 0 < n) (bt : BoundaryType)
    {first second : Int → Except PyError SimpleBoundary}
    (hf : first = left_edge (n, n) ∨ first = right_edge (n, n) ∨
      first = top_edge (n, n) ∨ first = bottom_edge (n, n))
    (hs : second = left_edge (n, n) ∨ second = right_edge (n, n) ∨
      second = top_edge (n, n) ∨ second = bottom_edge (n, n)) :
    ∃ d, (get_corner bt rank first second >>= fun c => Except.ok (some c)) =
      .ok (some d) := by
  obtain ⟨b1, hb1⟩ := edge_always_ok hn hf rank
  obtain ⟨b2, hb2⟩ := edge_always_ok hn hs b1.to_rank
  refine ⟨⟨bt, rank, b2.to_rank,
    b1.n_clockwise_rotations + b2.n_clockwise_rotations⟩, ?_⟩
  rw [get_corner_eval bt hb1 hb2]
  rfl

/-- C2: on a square layout, a corner query returns absent exactly when
the rank's face-local position is on both of that corner's two
defining edges; in every other case a descriptor is returned. -/
theorem corner_absent_iff_both_edges (n rank : Int) (ct : BoundaryType)
    (hn : 0 < n) (hr0 : 0 ≤ rank) (hr1 : rank < 6 * (n * n))
    (hct : ct = .TOP_LEFT ∨ ct = .TOP_RIGHT ∨ ct = .BOTTOM_LEFT ∨
      ct = .BOTTOM_RIGHT) :
    (boundary ct (n, n) rank = .ok none ↔ corner_both_edges ct (n, n) rank) ∧
    (¬ corner_both_edges ct (n, n) rank →
      ∃ d, boundary ct (n, n) rank = .ok (some d)) := by
  have main : ∀ hsome : (¬ corner_both_edges ct (n, n) rank →
        ∃ d, boundary ct (n, n) rank = .ok (some d)),
      ∀ habs : (corner_both_edges ct (n, n) rank →
        boundary ct (n, n) rank = .ok none),
      (boundary ct (n, n) rank = .ok none ↔ corner_both_edges ct (n, n) rank) ∧
      (¬ corner_both_edges ct (n, n) rank →
        ∃ d, boundary ct (n, n) rank = .ok (some d)) := by
    intro hsome habs
    refine ⟨⟨fun heq => ?_, habs⟩, hsome⟩
    by_contra hnb
    obtain ⟨d, hd⟩ := hsome hnb
    rw [heq] at hd
    simp at hd
  rcases hct with h | h | h | h <;> subst h
  · apply main
    · intro hnb
      show ∃ d, top_left_corner (n, n) rank = .ok (some d)
      unfold top_left_corner
      rw [if_neg (show ¬ (tile_on_tile_top (n, n) rank = true ∧
          tile_on_tile_left (n, n) rank = true) from hnb), cs_tile_index_eq]
      simp only [except_bind_ok]
      apply corner_else_some hn _ (Or.inl rfl)
      by_cases hP : is_even (rank / (n * n)) = true ∧
          on_tile_left (tile_subtile_index (n, n) rank) = true
      · rw [if_pos hP]
        exact Or.inl rfl
      · rw [if_neg hP]
        exact Or.inr (Or.inr (Or.inl rfl))
    · intro hb
      show top_left_corner (n, n) rank = .ok none
      unfold top_left_corner
      rw [if_pos (show tile_on_tile_top (n, n) rank = true ∧
        tile_on_tile_left (n, n) rank = true from hb)]
  · apply main
    · intro hnb
      show ∃ d, top_right_corner (n, n) rank = .ok (some d)
      unfold top_right_corner
      rw [if_neg (show ¬ (on_tile_top (tile_subtile_index (n, n) rank) (n, n) = true ∧
          on_tile_right (tile_subtile_index (n, n) rank) (n, n) = true) from hnb),
        cs_tile_index_eq]
      simp only [except_bind_ok]
      apply corner_else_some hn _ (Or.inr (Or.inr (Or.inl rfl)))
      by_cases hP : is_even (rank / (n * n)) = true ∧
          on_tile_top (tile_subtile_index (n, n) rank) (n, n) = true
      · rw [if_pos hP]
        exact Or.inr (Or.inr (Or.inr rfl))
      · rw [if_neg hP]
        exact Or.inr (Or.inl rfl)
    · intro hb
      show top_right_corner (n, n) rank = .ok none
      unfold top_right_corner
      rw [if_pos (show on_tile_top (tile_subtile_index (n, n) rank) (n, n) = true ∧
        on_tile_right (tile_subtile_index (n, n) rank) (n, n) = true from hb)]
  · apply main
    · intro hnb
      show ∃ d, bottom_left_corner (n, n) rank = .ok (some d)
      unfold bottom_left_corner
      rw [if_neg (show ¬ (on_tile_bottom (tile_subtile_index (n, n) rank) = true ∧
          on_tile_left (tile_subtile_index (n, n) rank) = true) from hnb),
        cs_tile_index_eq]
      simp only [except_bind_ok]
      apply corner_else_some hn _ (Or.inr (Or.inr (Or.inr rfl)))
      by_cases hP : ¬ is_even (rank / (n * n)) = true ∧
          on_tile_bottom (tile_subtile_index (n, n) rank) = true
      · rw [if_pos hP]
        exact Or.inr (Or.inr (Or.inl rfl))
      · rw [if_neg hP]
        exact Or.inl rfl
    · intro hb
      show bottom_left_corner (n, n) rank = .ok none
      unfold bottom_left_corner
      rw [if_pos (show on_tile_bottom (tile_subtile_index (n, n) rank) = true ∧
        on_tile_left (tile_subtile_index (n, n) rank) = true from hb)]
  · apply main
    · intro hnb
      show ∃ d, bottom_right_corner (n, n) rank = .ok (some d)
      unfold bottom_right_corner
      rw [if_neg (show ¬ (on_tile_bottom (tile_subtile_index (n, n) rank) = true ∧
          on_tile_right (tile_subtile_index (n, n) rank) (n, n) = true) from hnb),
        cs_tile_index_eq]
      simp only [except_bind_ok]
      apply corner_else_some hn _ (Or.inr (Or.inr (Or.inr rfl)))
      by_cases hP : ¬ is_even (rank / (n * n)) = true ∧
          on_tile_bottom (tile_subtile_index (n, n) rank) = true
      · rw [if_pos hP]
        exact Or.inr (Or.inr (Or.inr rfl))
      · rw [if_neg hP]
        exact Or.inr (Or.inl rfl)
    · intro hb
      show bottom_right_corner (n, n) rank = .ok none
      unfold bottom_right_corner
      rw [if_pos (show on_tile_bottom (tile_subtile_index (n, n) rank) = true ∧
        on_tile_right (tile_subtile_index (n, n) rank) (n, n) = true from hb)]

theorem corner_absent_iff_both_edges_witness :
    ((0:Int) < 2) ∧ ((0:Int) ≤ 1) ∧ ((1:Int) < 6 * (2 * 2)) ∧
    ((boundary .TOP_LEFT (2, 2) 1 = .ok none ↔
        corner_both_edges .TOP_LEFT (2, 2) 1) ∧
      (¬ corner_both_edges .TOP_LEFT (2, 2) 1 →
        ∃ d, boundary .TOP_LEFT (2, 2) 1 = .ok (some d))) :=
  ⟨by decide, by decide, by decide,
    corner_absent_iff_both_edges 2 1 .TOP_LEFT (by decide) (by decide) (by decide)
      (Or.inl rfl)⟩

/-- C1: whenever a corner query on a square layout returns a
descriptor, that descriptor is the composition of the two edge
resolutions dictated by the spec's truth table (first edge applied to
the rank, second edge — selected by the rank's face parity and
edge-membership — applied to the first edge's target): the returned
`to_rank` is the second edge's target and the returned rotation is the
sum of the two edges' rotation counts. -/
theorem corner_composes_two_edges (n rank : Int) (ct : BoundaryType)
    (hn : 0 < n) (hr0 : 0 ≤ rank) (hr1 : rank < 6 * (n * n))
    (hct : ct = .TOP_LEFT ∨ ct = .TOP_RIGHT ∨ ct = .BOTTOM_LEFT ∨
      ct = .BOTTOM_RIGHT)
    (d : SimpleBoundary) (hd : boundary ct (n, n) rank = .ok (some d))
    (e1 e2 : SimpleBoundary)
    (he1 : spec_corner_first ct (n, n) rank = .ok e1)
    (he2 : spec_corner_second ct (n, n) rank e1.to_rank = .ok e2) :
    d.to_rank = e2.to_rank ∧
      d.n_clockwise_rotations =
        e1.n_clockwise_rotations + e2.n_clockwise_rotations := by
  rcases hct with h | h | h | h <;> subst h
  · have he1' : left_edge (n, n) rank = .ok e1 := he1
    have he2' : (if rank / (n * n) % 2 = 0 ∧ rank % (n * n) % n = 0 then
        left_edge (n, n) else top_edge (n, n)) e1.to_rank = .ok e2 := he2
    simp only [boundary] at hd
    unfold top_left_corner at hd
    by_cases hBoth : tile_on_tile_top (n, n) rank = true ∧
        tile_on_tile_left (n, n) rank = true
    · rw [if_pos hBoth] at hd
      simp at hd
    · rw [if_neg hBoth, cs_tile_index_eq] at hd
      simp only [except_bind_ok] at hd
      by_cases hP : rank / (n * n) % 2 = 0 ∧ rank % (n * n) % n = 0
      · rw [if_pos hP] at he2'
        rw [if_pos (show is_even (rank / (n * n)) = true ∧
            on_tile_left (tile_subtile_index (n, n) rank) = true from
            ⟨(is_even_iff _).mpr hP.1, (tile_on_left_iff n rank).mpr hP.2⟩)] at hd
        rw [corner_compose_fields hd he1' he2']
        exact ⟨rfl, rfl⟩
      · rw [if_neg hP] at he2'
        rw [if_neg (show ¬ (is_even (rank / (n * n)) = true ∧
            on_tile_left (tile_subtile_index (n, n) rank) = true) from
            fun hcon => hP ⟨(is_even_iff _).mp hcon.1,
              (tile_on_left_iff n rank).mp hcon.2⟩)] at hd
        rw [corner_compose_fields hd he1' he2']
        exact ⟨rfl, rfl⟩
  · have he1' : top_edge (n, n) rank = .ok e1 := he1
    have he2' : (if rank / (n * n) % 2 = 0 ∧ rank % (n * n) / n = n - 1 then
        bottom_edge (n, n) else right_edge (n, n)) e1.to_rank = .ok e2 := he2
    simp only [boundary] at hd
    unfold top_right_corner at hd
    by_cases hBoth : on_tile_top (tile_subtile_index (n, n) rank) (n, n) = true ∧
        on_tile_right (tile_subtile_index (n, n) rank) (n, n) = true
    · rw [if_pos hBoth] at hd
      simp at hd
    · rw [if_neg hBoth, cs_tile_index_eq] at hd
      simp only [except_bind_ok] at hd
      by_cases hP : rank / (n * n) % 2 = 0 ∧ rank % (n * n) / n = n - 1
      · rw [if_pos hP] at he2'
        rw [if_pos (show is_even (rank / (n * n)) = true ∧
            on_tile_top (tile_subtile_index (n, n) rank) (n, n) = true from
            ⟨(is_even_iff _).mpr hP.1, (tile_on_top_iff n rank).mpr hP.2⟩)] at hd
        rw [corner_compose_fields hd he1' he2']
        exact ⟨rfl, rfl⟩
      · rw [if_neg hP] at he2'
        rw [if_neg (show ¬ (is_even (rank / (n * n)) = true ∧
            on_tile_top (tile_subtile_index (n, n) rank) (n, n) = true) from
            fun hcon => hP ⟨(is_even_iff _).mp hcon.1,
              (tile_on_top_iff n rank).mp hcon.2⟩)] at hd
        rw [corner_compose_fields hd he1' he2']
        exact ⟨rfl, rfl⟩
  · have he1' : bottom_edge (n, n) rank = .ok e1 := he1
    have he2' : (if ¬ rank / (n * n) % 2 = 0 ∧ rank % (n * n) / n = 0 then
        top_edge (n, n) else left_edge (n, n)) e1.to_rank = .ok e2 := he2
    simp only [boundary] at hd
    unfold bottom_left_corner at hd
    by_cases hBoth : on_tile_bottom (tile_subtile_index (n, n) rank) = true ∧
        on_tile_left (tile_subtile_index (n, n) rank) = true
    · rw [if_pos hBoth] at hd
      simp at hd
    · rw [if_neg hBoth, cs_tile_index_eq] at hd
      simp only [except_bind_ok] at hd
      by_cases hP : ¬ rank / (n * n) % 2 = 0 ∧ rank % (n * n) / n = 0
      · rw [if_pos hP] at he2'
        rw [if_pos (show ¬ is_even (rank / (n * n)) = true ∧
            on_tile_bottom (tile_subtile_index (n, n) rank) = true from
            ⟨fun habs => hP.1 ((is_even_iff _).mp habs),
              (tile_on_bottom_iff n rank).mpr hP.2⟩)] at hd
        rw [corner_compose_fields hd he1' he2']
        exact ⟨rfl, rfl⟩
      · rw [if_neg hP] at he2'
        rw [if_neg (show ¬ (¬ is_even (rank / (n * n)) = true ∧
            on_tile_bottom (tile_subtile_index (n, n) rank) = true) from
            fun hcon => hP ⟨fun habs => hcon.1 ((is_even_iff _).mpr habs),
              (tile_on_bottom_iff n rank).mp hcon.2⟩)] at hd
        rw [corner_compose_fields hd he1' he2']
        exact ⟨rfl, rfl⟩
  · have he1' : bottom_edge (n, n) rank = .ok e1 := he1
    have he2' : (if ¬ rank / (n * n) % 2 = 0 ∧ rank % (n * n) / n = 0 then
        bottom_edge (n, n) else right_edge (n, n)) e1.to_rank = .ok e2 := he2
    simp only [boundary] at hd
    unfold bottom_right_corner at hd
    by_cases hBoth : on_tile_bottom (tile_subtile_index (n, n) rank) = true ∧
        on_tile_right (tile_subtile_index (n, n) rank) (n, n) = true
    · rw [if_pos hBoth] at hd
      simp at hd
    · rw [if_neg hBoth, cs_tile_index_eq] at hd
      simp only [except_bind_ok] at hd
      by_cases hP : ¬ rank / (n * n) % 2 = 0 ∧ rank % (n * n) / n = 0
      · rw [if_pos hP] at he2'
        rw [if_pos (show ¬ is_even (rank / (n * n)) = true ∧
            on_tile_bottom (tile_subtile_index (n, n) rank) = true from
            ⟨fun habs => hP.1 ((is_even_iff _).mp habs),
              (tile_on_bottom_iff n rank).mpr hP.2⟩)] at hd
        rw [corner_compose_fields hd he1' he2']
        exact ⟨rfl, rfl⟩
      · rw [if_neg hP] at he2'
        rw [if_neg (show ¬ (¬ is_even (rank / (n * n)) = true ∧
            on_tile_bottom (tile_subtile_index (n, n) rank) = true) from
            fun hcon => hP ⟨fun habs => hcon.1 ((is_even_iff _).mpr habs),
              (tile_on_bottom_iff n rank).mp hcon.2⟩)] at hd
        rw [corner_compose_fields hd he1' he2']
        exact ⟨rfl, rfl⟩

theorem corner_composes_two_edges_witness :
    ((0:Int) < 2) ∧ ((0:Int) ≤ 3) ∧ ((3:Int) < 6 * (2 * 2)) ∧
    boundary .TOP_LEFT (2, 2) 3 = .ok (some ⟨.TOP_LEFT, 3, 10, 3⟩) ∧
    spec_corner_first .TOP_LEFT (2, 2) 3 = .ok ⟨.LEFT, 3, 2, 0⟩ ∧
    spec_corner_second .TOP_LEFT (2, 2) 3
      (SimpleBoundary.mk .LEFT 3 2 0).to_rank = .ok ⟨.TOP, 2, 10, 3⟩ ∧
    ((SimpleBoundary.mk .TOP_LEFT 3 10 3).to_rank =
        (SimpleBoundary.mk .TOP 2 10 3).to_rank ∧
      (SimpleBoundary.mk .TOP_LEFT 3 10 3).n_clockwise_rotations =
        (SimpleBoundary.mk .LEFT 3 2 0).n_clockwise_rotations +
          (SimpleBoundary.mk .TOP 2 10 3).n_clockwise_rotations) :=
  ⟨by decide, by decide, by decide, by decide, by decide, by decide,
    corner_composes_two_edges 2 3 .TOP_LEFT (by decide) (by decide) (by decide)
      (Or.inl rfl) ⟨.TOP_LEFT, 3, 10, 3⟩ (by decide) ⟨.LEFT, 3, 2, 0⟩
      ⟨.TOP, 2, 10, 3⟩ (by decide) (by decide)⟩

/-- The cross-face target `m * n² + ((n-1-c)·n + (n-1-r))` reduced
modulo the six-face total lands on face `m % 6` at row `n-1-c` and
column `n-1-r`. -/
lemma cross_target_facts {n m r c : Int} (hn : 0 < n) (hr0 : 0 ≤ r) (hr1 : r < n)
    (hc0 : 0 ≤ c) (hc1 : c < n) :
    ((m * (n * n) + ((n - 1 - c) * n + (n - 1 - r))) % (6 * (n * n))) / (n * n) =
      m % 6 ∧
    ((m * (n * n) + ((n - 1 - c) * n + (n - 1 - r))) % (6 * (n * n))) % (n * n) % n =
      n - 1 - r ∧
    ((m * (n * n) + ((n - 1 - c) * n + (n - 1 - r))) % (6 * (n * n))) % (n * n) / n =
      n - 1 - c := by
  have htt0 : 0 ≤ (n - 1 - c) * n + (n - 1 - r) := by nlinarith
  have htt1 : (n - 1 - c) * n + (n - 1 - r) < n * n := by nlinarith
  rw [cross_norm hn htt0 htt1]
  obtain ⟨hdiv, hmod⟩ := canonical_div_emod (mul_pos hn hn) htt0 htt1 (a := m % 6)
  obtain ⟨httdiv, httmod⟩ := canonical_div_emod hn
    (show (0:Int) ≤ n - 1 - r by omega) (show n - 1 - r < n by omega) (a := n - 1 - c)
  exact ⟨hdiv, by rw [hmod, httmod], by rw [hmod, httdiv]⟩

lemma except_map_ok {ε α β : Type} (f : α → β) (a : α) :
    (Except.ok a : Except ε α).map f = .ok (f a) := rfl

lemma zero_add_ite_three {P : Prop} [Decidable P] :
    (0:Int) + (if P then 3 else 0) = 0 ∨ (0:Int) + (if P then 3 else 0) = 1 ∨
    (0:Int) + (if P then 3 else 0) = 2 ∨ (0:Int) + (if P then 3 else 0) = 3 := by
  by_cases h : P
  · rw [if_pos h]
    norm_num
  · rw [if_neg h]
    norm_num

lemma zero_add_ite_one {P : Prop} [Decidable P] :
    (0:Int) + (if P then 1 else 0) = 0 ∨ (0:Int) + (if P then 1 else 0) = 1 ∨
    (0:Int) + (if P then 1 else 0) = 2 ∨ (0:Int) + (if P then 1 else 0) = 3 := by
  by_cases h : P
  · rw [if_pos h]
    norm_num
  · rw [if_neg h]
    norm_num

lemma one_add_ite_zero {P : Prop} [Decidable P] (hnp : ¬ P) :
    (1:Int) + (if P then 1 else 0) = 0 ∨ (1:Int) + (if P then 1 else 0) = 1 ∨
    (1:Int) + (if P then 1 else 0) = 2 ∨ (1:Int) + (if P then 1 else 0) = 3 := by
  rw [if_neg hnp]
  norm_num

lemma three_add_ite_zero {P : Prop} [Decidable P] (hnp : ¬ P) :
    (3:Int) + (if P then 3 else 0) = 0 ∨ (3:Int) + (if P then 3 else 0) = 1 ∨
    (3:Int) + (if P then 3 else 0) = 2 ∨ (3:Int) + (if P then 3 else 0) = 3 := by
  rw [if_neg hnp]
  norm_num

lemma corner_rot_of_eval {e1f e2f : Int → Except PyError SimpleBoundary}
    {rank : Int} {bt bt1 bt2 : BoundaryType} {fr1 fr2 to1 to2 r1 r2 : Int}
    {d : SimpleBoundary}
    (hd : (get_corner bt rank e1f e2f >>= fun c => Except.ok (some c)) = .ok (some d))
    (he1 : e1f rank = .ok ⟨bt1, fr1, to1, r1⟩)
    (he2 : e2f to1 = .ok ⟨bt2, fr2, to2, r2⟩) :
    d.n_clockwise_rotations = r1 + r2 := by
  have h := corner_compose_fields hd he1 he2
  rw [h]

/-- C3: on a square layout, every descriptor returned by any of the
eight boundary queries carries a rotation count in `{0, 1, 2, 3}`: the
edges only ever produce 0, 1 or 3, and in each corner composition the
branch whose first edge rotates pairs with a second edge that does
not, so the unreduced sum never leaves the range. -/
theorem boundary_rotation_in_range (n rank : Int) (bt : BoundaryType)
    (hn : 0 < n) (hr0 : 0 ≤ rank) (hr1 : rank < 6 * (n * n)) (d : SimpleBoundary)
    (hd : boundary bt (n, n) rank = .ok (some d)) :
    d.n_clockwise_rotations = 0 ∨ d.n_clockwise_rotations = 1 ∨
      d.n_clockwise_rotations = 2 ∨ d.n_clockwise_rotations = 3 := by
  have hT : (0:Int) < n * n := mul_pos hn hn
  have hc0 : 0 ≤ rank % (n * n) % n := Int.emod_nonneg _ (by omega)
  have hc1 : rank % (n * n) % n < n := Int.emod_lt_of_pos _ hn
  have hw0 : 0 ≤ rank % (n * n) := Int.emod_nonneg _ (by omega)
  have hw1 : rank % (n * n) < n * n := Int.emod_lt_of_pos _ hT
  have hrr0 : 0 ≤ rank % (n * n) / n := Int.ediv_nonneg hw0 (by omega)
  have hrr1 : rank % (n * n) / n < n := by
    rw [Int.ediv_lt_iff_lt_mul hn]
    linarith
  cases bt
  case LEFT =>
    simp only [boundary] at hd
    rw [left_edge_eval n rank hn, except_map_ok] at hd
    simp only [Except.ok.injEq, Option.some.injEq] at hd
    rw [← hd]
    by_cases hcond : rank % (n * n) % n = 0 ∧ rank / (n * n) % 2 = 0
    · right; left
      rw [if_pos hcond]
    · left
      rw [if_neg hcond]
  case RIGHT =>
    simp only [boundary] at hd
    rw [right_edge_eval n rank hn, except_map_ok] at hd
    simp only [Except.ok.injEq, Option.some.injEq] at hd
    rw [← hd]
    by_cases hcond : rank % (n * n) % n = n - 1 ∧ ¬ rank / (n * n) % 2 = 0
    · right; left
      rw [if_pos hcond]
    · left
      rw [if_neg hcond]
  case TOP =>
    simp only [boundary] at hd
    rw [top_edge_eval n rank hn, except_map_ok] at hd
    simp only [Except.ok.injEq, Option.some.injEq] at hd
    rw [← hd]
    by_cases hcond : rank % (n * n) / n = n - 1 ∧ rank / (n * n) % 2 = 0
    · right; right; right
      rw [if_pos hcond]
    · left
      rw [if_neg hcond]
  case BOTTOM =>
    simp only [boundary] at hd
    rw [bottom_edge_eval n rank hn, except_map_ok] at hd
    simp only [Except.ok.injEq, Option.some.injEq] at hd
    rw [← hd]
    by_cases hcond : rank % (n * n) / n = 0 ∧ ¬ rank / (n * n) % 2 = 0
    · right; right; right
      rw [if_pos hcond, if_pos hcond]
    · left
      rw [if_neg hcond, if_neg hcond]
  case TOP_LEFT =>
    simp only [boundary] at hd
    unfold top_left_corner at hd
    by_cases hBoth : tile_on_tile_top (n, n) rank = true ∧
        tile_on_tile_left (n, n) rank = true
    · rw [if_pos hBoth] at hd
      simp at hd
    · rw [if_neg hBoth, cs_tile_index_eq] at hd
      simp only [except_bind_ok] at hd
      by_cases hP : is_even (rank / (n * n)) = true ∧
          on_tile_left (tile_subtile_index (n, n) rank) = true
      · rw [if_pos hP] at hd
        have hc : rank % (n * n) % n = 0 := (tile_on_left_iff n rank).mp hP.2
        have hev : rank / (n * n) % 2 = 0 := (is_even_iff _).mp hP.1
        have hrne : ¬ rank % (n * n) / n = n - 1 :=
          fun habs => hBoth ⟨(tile_on_top_iff n rank).mpr habs, hP.2⟩
        have he1 := left_edge_eval n rank hn
        rw [if_pos hc, if_pos hev, if_pos ⟨hc, hev⟩] at he1
        have hfacts := cross_target_facts (m := rank / (n * n) - 2) hn hrr0 hrr1 hc0 hc1
        have hrot := corner_rot_of_eval hd he1 (left_edge_eval n _ hn)
        rw [hrot]
        have hcolne : ¬ ((rank / (n * n) - 2) * (n * n) +
            ((n - 1 - rank % (n * n) % n) * n + (n - 1 - rank % (n * n) / n))) %
              (6 * (n * n)) % (n * n) % n = 0 :=
          fun h1 => hrne (by omega)
        exact one_add_ite_zero (fun hcon => hcolne hcon.1)
      · rw [if_neg hP] at hd
        have hnot1 : ¬ (rank % (n * n) % n = 0 ∧ rank / (n * n) % 2 = 0) :=
          fun hcon => hP ⟨(is_even_iff _).mpr hcon.2, (tile_on_left_iff n rank).mpr hcon.1⟩
        have he1 := left_edge_eval n rank hn
        rw [if_neg hnot1] at he1
        have hrot := corner_rot_of_eval hd he1 (top_edge_eval n _ hn)
        rw [hrot]
        exact zero_add_ite_three
  case TOP_RIGHT =>
    simp only [boundary] at hd
    unfold top_right_corner at hd
    by_cases hBoth : on_tile_top (tile_subtile_index (n, n) rank) (n, n) = true ∧
        on_tile_right (tile_subtile_index (n, n) rank) (n, n) = true
    · rw [if_pos hBoth] at hd
      simp at hd
    · rw [if_neg hBoth, cs_tile_index_eq] at hd
      simp only [except_bind_ok] at hd
      by_cases hP : is_even (rank / (n * n)) = true ∧
          on_tile_top (tile_subtile_index (n, n) rank) (n, n) = true
      · rw [if_pos hP] at hd
        have htopc : rank % (n * n) / n = n - 1 := (tile_on_top_iff n rank).mp hP.2
        have hev : rank / (n * n) % 2 = 0 := (is_even_iff _).mp hP.1
        have he1 := top_edge_eval n rank hn
        rw [if_pos htopc, if_pos hev, if_pos ⟨htopc, hev⟩] at he1
        have hfacts := cross_target_facts (m := rank / (n * n) + 2) hn hrr0 hrr1 hc0 hc1
        have hrot := corner_rot_of_eval hd he1 (bottom_edge_eval n _ hn)
        rw [hrot]
        have hpar : ((rank / (n * n) + 2) * (n * n) +
            ((n - 1 - rank % (n * n) % n) * n + (n - 1 - rank % (n * n) / n))) %
              (6 * (n * n)) / (n * n) % 2 = 0 := by
          rw [hfacts.1, emod6_parity, add_two_emod_two]
          exact hev
        exact three_add_ite_zero (fun hcon => hcon.2 hpar)
      · rw [if_neg hP] at hd
        have hnot1 : ¬ (rank % (n * n) / n = n - 1 ∧ rank / (n * n) % 2 = 0) :=
          fun hcon => hP ⟨(is_even_iff _).mpr hcon.2, (tile_on_top_iff n rank).mpr hcon.1⟩
        have he1 := top_edge_eval n rank hn
        rw [if_neg hnot1] at he1
        have hrot := corner_rot_of_eval hd he1 (right_edge_eval n _ hn)
        rw [hrot]
        exact zero_add_ite_one
  case BOTTOM_LEFT =>
    simp only [boundary] at hd
    unfold bottom_left_corner at hd
    by_cases hBoth : on_tile_bottom (tile_subtile_index (n, n) rank) = true ∧
        on_tile_left (tile_subtile_index (n, n) rank) = true
    · rw [if_pos hBoth] at hd
      simp at hd
    · rw [if_neg hBoth, cs_tile_index_eq] at hd
      simp only [except_bind_ok] at hd
      by_cases hP : ¬ is_even (rank / (n * n)) = true ∧
          on_tile_bottom (tile_subtile_index (n, n) rank) = true
      · rw [if_pos hP] at hd
        have hbot : rank % (n * n) / n = 0 := (tile_on_bottom_iff n rank).mp hP.2
        have hodd : ¬ rank / (n * n) % 2 = 0 := fun h => hP.1 ((is_even_iff _).mpr h)
        have he1 := bottom_edge_eval n rank hn
        rw [if_pos ⟨hbot, hodd⟩, if_pos ⟨hbot, hodd⟩] at he1
        have hfacts := cross_target_facts (m := rank / (n * n) - 2) hn hrr0 hrr1 hc0 hc1
        have hrot := corner_rot_of_eval hd he1 (top_edge_eval n _ hn)
        rw [hrot]
        have hparne : ¬ ((rank / (n * n) - 2) * (n * n) +
            ((n - 1 - rank % (n * n) % n) * n + (n - 1 - rank % (n * n) / n))) %
              (6 * (n * n)) / (n * n) % 2 = 0 := by
          intro h
          rw [hfacts.1, emod6_parity, sub_two_emod_two] at h
          exact hodd h
        exact three_add_ite_zero (fun hcon => hparne hcon.2)
      · rw [if_neg hP] at hd
        have hnot1 : ¬ (rank % (n * n) / n = 0 ∧ ¬ rank / (n * n) % 2 = 0) :=
          fun hcon => hP ⟨fun habs => hcon.2 ((is_even_iff _).mp habs),
            (tile_on_bottom_iff n rank).mpr hcon.1⟩
        have he1 := bottom_edge_eval n rank hn
        rw [if_neg hnot1, if_neg hnot1] at he1
        have hrot := corner_rot_of_eval hd he1 (left_edge_eval n _ hn)
        rw [hrot]
        exact zero_add_ite_one
  case BOTTOM_RIGHT =>
    simp only [boundary] at hd
    unfold bottom_right_corner at hd
    by_cases hBoth : on_tile_bottom (tile_subtile_index (n, n) rank) = true ∧
        on_tile_right (tile_subtile_index (n, n) rank) (n, n) = true
    · rw [if_pos hBoth] at hd
      simp at hd
    · rw [if_neg hBoth, cs_tile_index_eq] at hd
      simp only [except_bind_ok] at hd
      by_cases hP : ¬ is_even (rank / (n * n)) = true ∧
          on_tile_bottom (tile_subtile_index (n, n) rank) = true
      · rw [if_pos hP] at hd
        have hbot : rank % (n * n) / n = 0 := (tile_on_bottom_iff n rank).mp hP.2
        have hodd : ¬ rank / (n * n) % 2 = 0 := fun h => hP.1 ((is_even_iff _).mpr h)
        have hcne : ¬ rank % (n * n) % n = n - 1 :=
          fun habs => hBoth ⟨hP.2, (tile_on_right_iff n rank).mpr habs⟩
        have he1 := bottom_edge_eval n rank hn
        rw [if_pos ⟨hbot, hodd⟩, if_pos ⟨hbot, hodd⟩] at he1
        have hfacts := cross_target_facts (m := rank / (n * n) - 2) hn hrr0 hrr1 hc0 hc1
        have hrot := corner_rot_of_eval hd he1 (bottom_edge_eval n _ hn)
        rw [hrot]
        have hrowne : ¬ ((rank / (n * n) - 2) * (n * n) +
            ((n - 1 - rank % (n * n) % n) * n + (n - 1 - rank % (n * n) / n))) %
              (6 * (n * n)) % (n * n) / n = 0 :=
          fun h1 => hcne (by omega)
        exact three_add_ite_zero (fun hcon => hrowne hcon.1)
      · rw [if_neg hP] at hd
        have hnot1 : ¬ (rank % (n * n) / n = 0 ∧ ¬ rank / (n * n) % 2 = 0) :=
          fun hcon => hP ⟨fun habs => hcon.2 ((is_even_iff _).mp habs),
            (tile_on_bottom_iff n rank).mpr hcon.1⟩
        have he1 := bottom_edge_eval n rank hn
        rw [if_neg hnot1, if_neg hnot1] at he1
        have hrot := corner_rot_of_eval hd he1 (right_edge_eval n _ hn)
        rw [hrot]
        exact zero_add_ite_one

theorem boundary_rotation_in_range_witness :
    ((0:Int) < 2) ∧ ((0:Int) ≤ 5) ∧ ((5:Int) < 6 * (2 * 2)) ∧
    boundary .BOTTOM (2, 2) 5 = .ok (some ⟨.BOTTOM, 5, 21, 3⟩) ∧
    ((SimpleBoundary.mk .BOTTOM 5 21 3).n_clockwise_rotations = 0 ∨
      (SimpleBoundary.mk .BOTTOM 5 21 3).n_clockwise_rotations = 1 ∨
      (SimpleBoundary.mk .BOTTOM 5 21 3).n_clockwise_rotations = 2 ∨
      (SimpleBoundary.mk .BOTTOM 5 21 3).n_clockwise_rotations = 3) :=
  ⟨by decide, by decide, by decide, by decide,
    boundary_rotation_in_range 2 5 .BOTTOM (by decide) (by decide) (by decide)
      ⟨.BOTTOM, 5, 21, 3⟩ (by decide)⟩
